import Mathlib

/-!
# Sourcetrail: screen search, mouse panning and the storage facade

A shallow embedding of `src/lib_gui/qt/element/QtCodeArea.cpp` (the screen-search
loop `findScreenMatches`, `clearScreenMatches` and the three mouse handlers) and of
the bookmark / graph-store part of the abstract class in
`src/lib/data/access/StorageAccess.h`.

Conventions of the embedding:

* a `std::string` is a `List Char`; its length is below `std::string::npos`, so a
  position is a `Nat` and the value `npos` is `none`;
* `Id` is an unsigned integer of `w` bits (the typedef lives in `utility/types.h`),
  so every arithmetic result stored in an `Id` is reduced modulo `2 ^ w`;
* an object (`this`) is identified by a natural number, its address;
* `utility::toLowerCase` and `QtCodeField::toLineColumn` are defined outside the two
  translated files and are parameters of the embedding;
* a `while` loop that may run forever is given fuel: `none` means the fuel ran out
  before the loop was left.
-/

set_option autoImplicit false

namespace Sourcetrail

/-! ## Data model of `QtCodeArea` -/

/-- The enumeration `LocationType` (declared outside the translated files): the kinds the code
area and the specification name. -/
inductive LocationType where
  | LOCATION_TOKEN
  | LOCATION_SCOPE
  | LOCATION_QUALIFIER
  | LOCATION_LOCAL_SYMBOL
  | LOCATION_COMMENT
  | LOCATION_ERROR
  | LOCATION_SCREEN_SEARCH
  deriving DecidableEq

/-- The record `QtCodeField::Annotation` (declared in `QtCodeField.h`, outside the translated
files) with the fields that `QtCodeArea.cpp` reads or writes. Text positions are natural
numbers; `locationId` holds an `Id`. -/
structure Annotation where
  start : Nat
  «end» : Nat
  startLine : Int
  startCol : Int
  endLine : Int
  endCol : Int
  locationId : Nat
  locationType : LocationType
  tokenIds : List Nat
  isActive : Bool
  isFocused : Bool
  deriving DecidableEq

/-- The part of the state of a `QtCodeArea` object that screen search touches:
`getCode()`, `getStartLineNumber()`, `m_annotations`, `m_linesToRehighlight` and the
number of `viewport()->update()` requests made so far. -/
structure QtCodeArea where
  m_code : List Char
  m_startLineNumber : Int
  m_annotations : List Annotation
  m_linesToRehighlight : List Int
  viewportUpdates : Nat
  deriving DecidableEq

/-- The vector `std::vector<std::pair<QtCodeArea*, Id>>`: pairs of an object address and an id. -/
abbrev ScreenMatches := List (Nat × Nat)

/-! ## Unsigned arithmetic on `Id` -/

/-- Bitwise complement `~x` of a `w`-bit unsigned value. -/
def idNot (w x : Nat) : Nat := 2 ^ w - 1 - x % 2 ^ w

/-- The constant `~(~Id(0) >> 2)`, computed in the `w`-bit unsigned type `Id` (an `Id` at least
as wide as `unsigned int`, so that no integer promotion to a signed type takes place). -/
def screenMatchBase (w : Nat) : Nat := idNot w (idNot w 0 >>> 2)

/-- The value `~(~Id(0) >> 2) + screenMatches->size() + 1` as stored in the `Id`
`matchAnnotation.locationId`, with `size` the value of `screenMatches->size()`. -/
def screenMatchId (w size : Nat) : Nat := (screenMatchBase w + size + 1) % 2 ^ w

/-- The two most significant bits of a `w`-bit value are both 1. -/
def topTwoBitsSet (w id : Nat) : Bool := id.testBit (w - 1) && id.testBit (w - 2)

/-! ## `std::string::find` -/

/-- The string `query` occurs in `code` at position `i`. -/
def occursAt (code query : List Char) (i : Nat) : Bool :=
  decide (i + query.length ≤ code.length) && ((code.drop i).take query.length == query)

/-- Scan of the candidate positions `i, i + 1, ...`, `n` of them. -/
def findFrom (code query : List Char) : Nat → Nat → Option Nat
  | 0, _ => none
  | n + 1, i => if occursAt code query i then some i else findFrom code query n (i + 1)

/-- The call `code.find(query, pos)`: the lowest position `i ≥ pos` at which `query` occurs
in `code`, `none` (that is `npos`) when there is none. -/
def find (code query : List Char) (pos : Nat) : Option Nat :=
  findFrom code query (code.length + 1 - pos) pos

/-! ## `QtCodeArea::findScreenMatches` -/

/-- The variables the `while` loop of `findScreenMatches` changes. -/
structure LoopState where
  pos : Option Nat
  m_annotations : List Annotation
  screenMatches : ScreenMatches
  deriving DecidableEq

/-- The annotation built in one iteration for a match found at `pos` while the vector holds
`size` entries. -/
def matchAnnotationAt (w : Nat) (toLineColumn : Nat → Int × Int) (query : List Char)
    (size : Nat) (pos : Nat) : Annotation :=
  { start := pos
    «end» := pos + query.length
    startLine := (toLineColumn pos).1
    startCol := (toLineColumn pos).2
    endLine := (toLineColumn (pos + query.length)).1
    endCol := (toLineColumn (pos + query.length)).2
    locationId := screenMatchId w size
    locationType := LocationType.LOCATION_SCREEN_SEARCH
    tokenIds := []
    isActive := false
    isFocused := false }

/-- One pass through `while (pos != std::string::npos) { ... }`: `none` when the loop is left
(by its condition or by the `break`), otherwise the state after the body. -/
def loopBody (w : Nat) (toLineColumn : Nat → Int × Int) (this : Nat) (code query : List Char)
    (st : LoopState) : Option LoopState :=
  match st.pos with
  | none => none
  | some pos =>
    match find code query pos with
    | none => none
    | some p =>
      let a := matchAnnotationAt w toLineColumn query st.screenMatches.length p
      some { pos := some (p + query.length)
             m_annotations := st.m_annotations ++ [a]
             screenMatches := st.screenMatches ++ [(this, a.locationId)] }

/-- The `while` loop with fuel: the state in which the loop is left, `none` when it is still
running after `fuel` passes. -/
def whileLoop (w : Nat) (toLineColumn : Nat → Int × Int) (this : Nat) (code query : List Char) :
    Nat → LoopState → Option LoopState
  | 0, _ => none
  | fuel + 1, st =>
    match loopBody w toLineColumn this code query st with
    | none => some { st with pos := none }
    | some st1 => whileLoop w toLineColumn this code query fuel st1

/-- The state after exactly `n` passes through the loop body, `none` when the loop is left
earlier. -/
def iterate (w : Nat) (toLineColumn : Nat → Int × Int) (this : Nat) (code query : List Char) :
    Nat → LoopState → Option LoopState
  | 0, st => some st
  | n + 1, st =>
    match loopBody w toLineColumn this code query st with
    | none => none
    | some st1 => iterate w toLineColumn this code query n st1

/-- The method `QtCodeArea::findScreenMatches(query, screenMatches)` called on the object at
address `this` whose state is `area`: the new state of the object and the new vector. -/
def findScreenMatches (w : Nat) (toLowerCase : List Char → List Char)
    (toLineColumn : Nat → Nat → Int × Int) (fuel : Nat) (this : Nat) (area : QtCodeArea)
    (query : List Char) (screenMatches : ScreenMatches) : Option (QtCodeArea × ScreenMatches) :=
  let code := toLowerCase area.m_code
  match whileLoop w (toLineColumn this) this code query fuel
      { pos := some 0, m_annotations := area.m_annotations, screenMatches := screenMatches } with
  | none => none
  | some st =>
    let update : Bool :=
      decide (st.screenMatches.length ≠ 0) && (st.screenMatches.getLast?.map Prod.fst == some this)
    some ({ area with
              m_annotations := st.m_annotations
              viewportUpdates := if update then area.viewportUpdates + 1 else area.viewportUpdates },
          st.screenMatches)

/-- The loop of `clearScreenMatches`: walks `i` down while `m_annotations[i - 1]` is a screen
match and records the lines to rehighlight. -/
def clearLoop (anns : List Annotation) (startLineNumber : Int) : Nat → List Int → Nat × List Int
  | 0, lines => (0, lines)
  | i + 1, lines =>
    match anns.get? i with
    | some a =>
      if a.locationType = LocationType.LOCATION_SCREEN_SEARCH then
        clearLoop anns startLineNumber i (lines ++ [a.startLine - startLineNumber])
      else (i + 1, lines)
    | none => (i + 1, lines)

/-- The method `QtCodeArea::clearScreenMatches()`. -/
def clearScreenMatches (area : QtCodeArea) : QtCodeArea :=
  let r := clearLoop area.m_annotations area.m_startLineNumber area.m_annotations.length
    area.m_linesToRehighlight
  if r.1 ≠ area.m_annotations.length then
    { area with
        m_linesToRehighlight := r.2
        m_annotations := area.m_annotations.take r.1
        viewportUpdates := area.viewportUpdates + 1 }
  else
    { area with m_linesToRehighlight := r.2 }

/-- The empty code area over the text `code`. -/
def mkArea (code : String) : QtCodeArea :=
  { m_code := code.toList, m_startLineNumber := 1, m_annotations := [],
    m_linesToRehighlight := [], viewportUpdates := 0 }

/-- A lower-casing of ASCII letters, used for concrete runs. -/
def asciiLower (s : List Char) : List Char := s.map Char.toLower

/-- A line/column map for concrete runs: everything on line 1. -/
def oneLine (_this : Nat) (pos : Nat) : Int × Int := (1, (pos : Int) + 1)

/-! ## Specification vocabulary for the screen-search loop -/

/-- The annotations the loop builds for the match positions `starts`, the first one while the
vector holds `size` entries. -/
def annotationsFor (w : Nat) (toLineColumn : Nat → Int × Int) (query : List Char) :
    Nat → List Nat → List Annotation
  | _, [] => []
  | size, s :: rest =>
    matchAnnotationAt w toLineColumn query size s ::
      annotationsFor w toLineColumn query (size + 1) rest

/-- The list `starts` is the greedy left-to-right scan for `query` in `code` from position `p`:
each start is the first occurrence at or after the position the scan has reached, the scan resumes
right behind that occurrence, and after the last start nothing occurs any more. -/
def Greedy (code query : List Char) : Nat → List Nat → Prop
  | p, [] => ∀ j, p ≤ j → occursAt code query j = false
  | p, s :: rest =>
    p ≤ s ∧ occursAt code query s = true ∧ (∀ j, p ≤ j → j < s → occursAt code query j = false) ∧
      Greedy code query (s + query.length) rest

/-- The state in which the loop is left after it has found the matches `starts`. -/
def exitState (w : Nat) (tlc : Nat → Int × Int) (this : Nat) (query : List Char)
    (st : LoopState) (starts : List Nat) : LoopState :=
  { pos := none
    m_annotations :=
      st.m_annotations ++ annotationsFor w tlc query st.screenMatches.length starts
    screenMatches :=
      st.screenMatches ++
        (annotationsFor w tlc query st.screenMatches.length starts).map
          (fun a => (this, a.locationId)) }

/-! ## A search session: several calls sharing one vector -/

/-- The code-area objects of the session, by address. -/
abbrev Heap := Nat → QtCodeArea

/-- The calls `area->findScreenMatches(query, &screenMatches)` made one after the other, each
for the object at the listed address with the listed query, all on the same vector. -/
def searchAreas (w : Nat) (toLowerCase : List Char → List Char)
    (toLineColumn : Nat → Nat → Int × Int) (fuel : Nat) :
    List (Nat × List Char) → Heap × ScreenMatches → Option (Heap × ScreenMatches)
  | [], s => some s
  | (this, query) :: rest, (heap, sm) =>
    match findScreenMatches w toLowerCase toLineColumn fuel this (heap this) query sm with
    | none => none
    | some (area1, sm1) =>
      searchAreas w toLowerCase toLineColumn fuel rest (Function.update heap this area1, sm1)

/-- The annotations appended to the object at address `t` between the heaps `heap` and `heap1`. -/
def created (heap heap1 : Heap) (t : Nat) : List Annotation :=
  (heap1 t).m_annotations.drop (heap t).m_annotations.length

/-! ## Mouse handling of `QtCodeArea` -/

/-- The values of `Qt::MouseButton` a mouse event can carry. -/
inductive MouseButton where
  | NoButton
  | LeftButton
  | RightButton
  | MiddleButton
  deriving DecidableEq

/-- The cursor shapes the handlers set on the viewport. -/
inductive CursorShape where
  | ArrowCursor
  | IBeamCursor
  | ClosedHandCursor
  deriving DecidableEq

/-- The calls the mouse handlers make on collaborators, in the order made. Annotations are
named by their addresses. -/
inductive Call where
  | clearSelection
  | setNewTextCursor (x y : Int) (keepAnchor : Bool)
  | setIDECursorPosition (x y : Int)
  | activateErrors (annotations : List Nat)
  | activateAnnotations (annotations : List Nat)
  | dispatchMessageActivateLocalSymbols
  | setScrollBarValue (deltaX : Int)
  | hideToolTip
  | setHoveredAnnotations (annotations : List Nat)
  | showToolTip (hovered : Nat)
  deriving DecidableEq

/-- A `QMouseEvent` together with the answers the surroundings give while it is handled:
`QApplication::keyboardModifiers()`, `getInteractiveAnnotationsForPosition` at the event
position, whether the first of those annotations has token ids, `m_navigator->hasErrors()` and
`m_navigator->getActiveLocalSymbolIds()`. -/
structure QMouseEvent where
  button : MouseButton
  x : Int
  y : Int
  shiftModifier : Bool
  controlModifier : Bool
  interactiveAnnotations : List Nat
  firstHasTokenIds : Bool
  hasErrors : Bool
  activeLocalSymbolIds : List Nat
  deriving DecidableEq

/-- The members of `QtCodeArea` the mouse handlers read and write, the cursor shape of the
viewport, and the log of calls made so far. -/
structure MouseState where
  m_isSelecting : Bool
  m_isPanning : Bool
  m_oldMousePosition : Int × Int
  m_panningDistance : Int
  m_eventPosition : Int × Int
  m_hoveredAnnotations : List Nat
  cursor : CursorShape
  calls : List Call
  deriving DecidableEq

/-- The handler `QtCodeArea::mousePressEvent`. -/
def mousePressEvent (st : MouseState) (event : QMouseEvent) : MouseState :=
  let st := { st with calls := st.calls ++ [Call.clearSelection] }
  if event.button = MouseButton.LeftButton then
    let st := { st with m_oldMousePosition := (event.x, event.y), m_panningDistance := 0 }
    if event.shiftModifier then
      { st with m_isPanning := true, cursor := CursorShape.ClosedHandCursor }
    else
      { st with
          m_isSelecting := true
          calls := st.calls ++ [Call.setNewTextCursor event.x event.y false]
          cursor := CursorShape.IBeamCursor }
  else st

/-- The constant `panningThreshold` of `mouseReleaseEvent`. -/
def panningThreshold : Int := 5

/-- The handler `QtCodeArea::mouseReleaseEvent`. -/
def mouseReleaseEvent (st : MouseState) (event : QMouseEvent) : MouseState :=
  if event.button = MouseButton.LeftButton then
    let st := { st with m_isSelecting := false, m_isPanning := false,
                        cursor := CursorShape.ArrowCursor }
    if st.m_panningDistance < panningThreshold then
      if event.controlModifier then
        { st with
            m_eventPosition := (event.x, event.y)
            calls := st.calls ++ [Call.setIDECursorPosition event.x event.y] }
      else if event.interactiveAnnotations.length ≠ 0 then
        if event.hasErrors then
          { st with calls := st.calls ++ [Call.activateErrors event.interactiveAnnotations] }
        else
          { st with calls := st.calls ++ [Call.activateAnnotations event.interactiveAnnotations] }
      else if event.activeLocalSymbolIds.length ≠ 0 then
        { st with calls := st.calls ++ [Call.dispatchMessageActivateLocalSymbols] }
      else st
    else st
  else st

/-- The handler `QtCodeArea::mouseMoveEvent`. -/
def mouseMoveEvent (st : MouseState) (event : QMouseEvent) : MouseState :=
  let deltaX := event.x - st.m_oldMousePosition.1
  let deltaY := event.y - st.m_oldMousePosition.2
  let st := { st with
    m_oldMousePosition := (event.x, event.y)
    m_panningDistance := st.m_panningDistance + ((deltaX + deltaY).natAbs : Int) }
  let st :=
    if st.m_isSelecting then
      { st with calls := st.calls ++ [Call.setNewTextCursor event.x event.y true] }
    else if st.m_isPanning then
      { st with calls := st.calls ++ [Call.setScrollBarValue deltaX] }
    else st
  if event.interactiveAnnotations ≠ st.m_hoveredAnnotations then
    let st := { st with
      calls := st.calls ++
        [Call.hideToolTip, Call.setHoveredAnnotations event.interactiveAnnotations]
      m_hoveredAnnotations := event.interactiveAnnotations }
    match event.interactiveAnnotations with
    | [a] =>
      if event.hasErrors && event.firstHasTokenIds then
        { st with calls := st.calls ++ [Call.showToolTip a] }
      else st
    | _ => st
  else st

/-- A left-button press, the given mouse moves, then a left-button release. -/
def pressMoveRelease (st : MouseState) (press : QMouseEvent) (moves : List QMouseEvent)
    (release : QMouseEvent) : MouseState :=
  mouseReleaseEvent (moves.foldl mouseMoveEvent (mousePressEvent st press)) release

/-- The distance the claim of the panning guard speaks of: the sum over the moves of
`|deltaX| + |deltaY|`, starting from the position `old`. -/
def manhattanDistance : Int × Int → List QMouseEvent → Int
  | _, [] => 0
  | old, e :: rest =>
    ((e.x - old.1).natAbs : Int) + ((e.y - old.2).natAbs : Int) +
      manhattanDistance (e.x, e.y) rest

/-- The distance the handlers accumulate in `m_panningDistance`: the sum over the moves of
`|deltaX + deltaY|`, starting from the position `old`. -/
def accumulatedDistance : Int × Int → List QMouseEvent → Int
  | _, [] => 0
  | old, e :: rest =>
    (((e.x - old.1) + (e.y - old.2)).natAbs : Int) + accumulatedDistance (e.x, e.y) rest

/-- A code area at rest: no button held, nothing hovered, no calls made yet. -/
def idleMouse : MouseState :=
  { m_isSelecting := false, m_isPanning := false, m_oldMousePosition := (0, 0),
    m_panningDistance := 0, m_eventPosition := (0, 0), m_hoveredAnnotations := [],
    cursor := CursorShape.ArrowCursor, calls := [] }

/-- A mouse event with the left button at `(x, y)` over no annotation. -/
def leftAt (x y : Int) (shift control : Bool) : QMouseEvent :=
  { button := MouseButton.LeftButton, x := x, y := y, shiftModifier := shift,
    controlModifier := control, interactiveAnnotations := [], firstHasTokenIds := false,
    hasErrors := false, activeLocalSymbolIds := [] }

/-! ## The storage facade `StorageAccess`

`StorageAccess.h` declares the operations as pure virtual members; the class that implements
them is not part of the translated sources. The bodies below follow the specification. A
non-const member maps the state of the store to its new state; where the specification lets an
operation fail, the failure that reaches the caller is an `Except.error`. -/

/-- Modelled from the spec: `NameHierarchy` (its header is not among the translated files), the
canonical qualified name of a node: its components in order, and the separator. -/
structure NameHierarchy where
  components : List String
  delimiter : String
  deriving DecidableEq

/-- Modelled from the spec: `Node::NodeType`, the closed set of node kinds. -/
inductive NodeType where
  | NODE_FILE
  | NODE_CLASS
  | NODE_FUNCTION
  | NODE_VARIABLE
  | NODE_NAMESPACE
  deriving DecidableEq

/-- Modelled from the spec: a node of the graph store, `{id, type, nameHierarchy}`. -/
structure Node where
  id : Nat
  type : NodeType
  nameHierarchy : NameHierarchy
  deriving DecidableEq

/-- Modelled from the spec: a directed, typed edge `{id, type, sourceNodeId, targetNodeId}`;
`type` is the number of the bit the edge type has in an `EdgeTypeMask`. -/
structure Edge where
  id : Nat
  type : Nat
  sourceNodeId : Nat
  targetNodeId : Nat
  deriving DecidableEq

/-- Modelled from the spec: the graph store, the nodes and edges the indexer loaded. -/
structure GraphStore where
  nodes : List Node
  edges : List Edge
  deriving DecidableEq

/-- Modelled from the spec: `Graph`, a query result, a subset of the nodes and edges of the
store. -/
structure Graph where
  nodes : List Node
  edges : List Edge
  deriving DecidableEq

/-- The name hierarchy without components, the "no result" value of a hierarchy lookup. -/
def emptyNameHierarchy : NameHierarchy := { components := [], delimiter := "" }

/-- Modelled from the spec: the body of `getNodeIdForNameHierarchy`, which the header only
declares. The lookup by name hierarchy returns the id of the node with that hierarchy, and the
null id 0 when no node has it. -/
def getNodeIdForNameHierarchy (store : GraphStore) (nameHierarchy : NameHierarchy) : Nat :=
  match store.nodes.find? (fun n => decide (n.nameHierarchy = nameHierarchy)) with
  | some n => n.id
  | none => 0

/-- Modelled from the spec: the body of `getNameHierarchyForNodeId`, which the header only
declares. It returns the hierarchy of the node with the id, and the empty hierarchy when the
id has no match. -/
def getNameHierarchyForNodeId (store : GraphStore) (id : Nat) : NameHierarchy :=
  match store.nodes.find? (fun n => decide (n.id = id)) with
  | some n => n.nameHierarchy
  | none => emptyNameHierarchy

/-- The data-model invariant "distinct nodes never share a `NameHierarchy`". -/
def DistinctNameHierarchies (store : GraphStore) : Prop :=
  ∀ n1 ∈ store.nodes, ∀ n2 ∈ store.nodes, n1.nameHierarchy = n2.nameHierarchy → n1 = n2

instance (store : GraphStore) : Decidable (DistinctNameHierarchies store) := by
  unfold DistinctNameHierarchies
  infer_instance

/-- Modelled from the spec: an edge is eligible for traversal when the bit of its type is set
in the mask. -/
def eligible (mask : Nat) (e : Edge) : Bool := mask.testBit e.type

/-- Modelled from the spec: a hop of the trail search, the edge followed, the node it was
followed from and the node it reaches. -/
structure Hop where
  edge : Edge
  source : Nat
  target : Nat
  deriving DecidableEq

/-- Modelled from the spec: the hops one step of the trail search can make from the nodes
`frontier`. The forward search follows an eligible edge from its source to its target, the
backward search from its target to its source; an edge whose type is followed in both
directions is also followed the other way round. -/
def hops (store : GraphStore) (mask : Nat) (bidirectional : Nat → Bool) (forward : Bool)
    (frontier : List Nat) : List Hop :=
  store.edges.flatMap fun e =>
    if eligible mask e then
      let near := if forward then e.sourceNodeId else e.targetNodeId
      let far := if forward then e.targetNodeId else e.sourceNodeId
      (if near ∈ frontier then [{ edge := e, source := near, target := far }] else []) ++
        (if bidirectional e.type && decide (far ∈ frontier) then
          [{ edge := e, source := far, target := near }] else [])
    else []

/-- Modelled from the spec: the state of one side of the bidirectional search, that is the
nodes reached so far, the nodes reached in the last step, and the hops made. -/
structure Side where
  visited : List Nat
  frontier : List Nat
  followed : List Hop
  deriving DecidableEq

/-- Modelled from the spec: one side of the search after `depth` hops from `start`. With depth
0 the start node is its own frontier and nothing is followed. -/
def searchSide (store : GraphStore) (mask : Nat) (bidirectional : Nat → Bool) (forward : Bool)
    (start : Nat) : Nat → Side
  | 0 => { visited := [start], frontier := [start], followed := [] }
  | depth + 1 =>
    let s := searchSide store mask bidirectional forward start depth
    let hs := hops store mask bidirectional forward s.frontier
    let reached := ((hs.map Hop.target).filter fun n => decide (n ∉ s.visited)).dedup
    { visited := s.visited ++ reached
      frontier := reached
      followed := (s.followed ++ hs).dedup }

/-- Modelled from the spec: the part of one side that lies on a trail. Starting from the
meeting nodes, `rounds` times every hop that reaches a kept node is kept, together with the
node it was made from. -/
def trailPart (followed : List Hop) : Nat → List Nat × List Edge → List Nat × List Edge
  | 0, kept => kept
  | rounds + 1, kept =>
    let hs := followed.filter fun h => decide (h.target ∈ kept.1)
    trailPart followed rounds
      ((kept.1 ++ hs.map Hop.source).dedup, (kept.2 ++ hs.map Hop.edge).dedup)

/-- Modelled from the spec: the body of `getGraphForTrail`, which the header only declares.
A bounded breadth-first search runs forward from the origin and backward from the target, each
for `depth` hops over the edges whose type is in the mask. The nodes reached from both sides are
the meeting nodes; without one the result is the empty graph. Otherwise the result holds every
meeting node and the nodes and edges of both sides that lie on a trail to a meeting node. -/
def getGraphForTrail (store : GraphStore) (bidirectional : Nat → Bool)
    (originId targetId : Nat) (trailType : Nat) (depth : Nat) : Graph :=
  let fwd := searchSide store trailType bidirectional true originId depth
  let bwd := searchSide store trailType bidirectional false targetId depth
  let meeting := fwd.visited.filter fun n => decide (n ∈ bwd.visited)
  if meeting = [] then { nodes := [], edges := [] }
  else
    let f := trailPart fwd.followed depth (meeting, [])
    let b := trailPart bwd.followed depth (meeting, [])
    let keptNodes := (f.1 ++ b.1).dedup
    let keptEdges := (f.2 ++ b.2).dedup
    { nodes := store.nodes.filter fun n => decide (n.id ∈ keptNodes)
      edges := store.edges.filter fun e => decide (e ∈ keptEdges) }

/-- Modelled from the spec: `NodeBookmark`, a bookmark on a node; its target is a name
hierarchy. -/
structure NodeBookmark where
  id : Nat
  name : String
  comment : String
  categoryId : Nat
  timestamp : Nat
  target : NameHierarchy
  deriving DecidableEq

/-- Modelled from the spec: `EdgeBookmark`, a bookmark on an edge; its target is the edge type
and the hierarchies of its ends. -/
structure EdgeBookmark where
  id : Nat
  name : String
  comment : String
  categoryId : Nat
  timestamp : Nat
  edgeType : Nat
  source : NameHierarchy
  target : NameHierarchy
  deriving DecidableEq

/-- Modelled from the spec: `BookmarkCategory`, `{id, name}`. -/
structure BookmarkCategory where
  id : Nat
  name : String
  deriving DecidableEq

/-- Modelled from the spec: the bookmark store, that is what `getAllNodeBookmarks`,
`getAllEdgeBookmarks` and `getAllBookmarkCategories` return. -/
structure BookmarkStore where
  nodeBookmarks : List NodeBookmark
  edgeBookmarks : List EdgeBookmark
  categories : List BookmarkCategory
  deriving DecidableEq

/-- Modelled from the spec: the failures of the error taxonomy (section 7) that are returned
to the caller; `EmptyResult` is not an error. -/
inductive StorageError where
  | NotFound
  | MalformedReference
  deriving DecidableEq

/-- No bookmark of the store has the id. -/
def bookmarkAbsent (s : BookmarkStore) (id : Nat) : Prop :=
  (∀ b ∈ s.nodeBookmarks, b.id ≠ id) ∧ (∀ b ∈ s.edgeBookmarks, b.id ≠ id)

/-- No category of the store has the id. -/
def categoryAbsent (s : BookmarkStore) (id : Nat) : Prop :=
  ∀ c ∈ s.categories, c.id ≠ id

/-- Modelled from the spec: the search for a node or edge bookmark with the id. -/
def hasBookmark (s : BookmarkStore) (id : Nat) : Bool :=
  s.nodeBookmarks.any (fun b => decide (b.id = id)) ||
    s.edgeBookmarks.any (fun b => decide (b.id = id))

/-- Modelled from the spec: the search for a category with the id. -/
def hasCategory (s : BookmarkStore) (id : Nat) : Bool :=
  s.categories.any fun c => decide (c.id = id)

/-- Modelled from the spec: the id of the category called `categoryName`, 0 (no category) when
there is none. -/
def categoryIdForName (s : BookmarkStore) (categoryName : String) : Nat :=
  match s.categories.find? (fun c => decide (c.name = categoryName)) with
  | some c => c.id
  | none => 0

/-- Modelled from the spec: the body of `updateBookmark`, which the header declares as
`virtual void updateBookmark(const Id, const std::string&, const std::string&,
const std::string&) = 0`. Name, comment and category of the bookmark with the id are replaced,
its target is kept. When no bookmark has the id, the operation fails with `NotFound`, and the
failure is reported to the caller: the member returns no value, so the failure leaves the call
as an error, and the store is not changed. -/
def updateBookmark (s : BookmarkStore) (bookmarkId : Nat) (name comment categoryName : String) :
    Except StorageError BookmarkStore :=
  if hasBookmark s bookmarkId then
    Except.ok { s with
      nodeBookmarks := s.nodeBookmarks.map fun b =>
        if b.id = bookmarkId then
          { b with name := name, comment := comment,
                   categoryId := categoryIdForName s categoryName }
        else b
      edgeBookmarks := s.edgeBookmarks.map fun b =>
        if b.id = bookmarkId then
          { b with name := name, comment := comment,
                   categoryId := categoryIdForName s categoryName }
        else b }
  else Except.error StorageError.NotFound

/-- Modelled from the spec: the body of `removeBookmark`, declared in the header as
`virtual void removeBookmark(const Id id) = 0`. The bookmark with the id is deleted; when no
bookmark has the id, the operation fails with `NotFound`, reported to the caller. -/
def removeBookmark (s : BookmarkStore) (id : Nat) : Except StorageError BookmarkStore :=
  if hasBookmark s id then
    Except.ok { s with
      nodeBookmarks := s.nodeBookmarks.filter fun b => decide (b.id ≠ id)
      edgeBookmarks := s.edgeBookmarks.filter fun b => decide (b.id ≠ id) }
  else Except.error StorageError.NotFound

/-- Modelled from the spec: the body of `removeBookmarkCategory`, declared in the header as
`virtual void removeBookmarkCategory(const Id id) = 0`. The category is deleted; its bookmarks
stay, with the category reference cleared. When no category has the id, the operation fails
with `NotFound`, reported to the caller. -/
def removeBookmarkCategory (s : BookmarkStore) (id : Nat) : Except StorageError BookmarkStore :=
  if hasCategory s id then
    Except.ok
      { nodeBookmarks := s.nodeBookmarks.map fun b =>
          if b.categoryId = id then { b with categoryId := 0 } else b
        edgeBookmarks := s.edgeBookmarks.map fun b =>
          if b.categoryId = id then { b with categoryId := 0 } else b
        categories := s.categories.filter fun c => decide (c.id ≠ id) }
  else Except.error StorageError.NotFound

/-- A store for concrete runs: the categories 5 and 7, the node bookmark 1 and the edge
bookmark 3, both in category 5. -/
def sampleBookmarkStore : BookmarkStore :=
  { nodeBookmarks :=
      [{ id := 1, name := "main", comment := "", categoryId := 5, timestamp := 0,
         target := { components := ["main"], delimiter := "::" } }]
    edgeBookmarks :=
      [{ id := 3, name := "call", comment := "", categoryId := 5, timestamp := 1,
         edgeType := 1, source := { components := ["main"], delimiter := "::" },
         target := { components := ["run"], delimiter := "::" } }]
    categories := [{ id := 5, name := "default" }, { id := 7, name := "later" }] }

/-- A store for concrete runs: a file `F`, a class `C` and its method `M`, with one edge of
type 0 from `C` to `M`. -/
def sampleGraphStore : GraphStore :=
  { nodes :=
      [{ id := 1, type := NodeType.NODE_FILE,
         nameHierarchy := { components := ["F"], delimiter := "/" } },
       { id := 2, type := NodeType.NODE_CLASS,
         nameHierarchy := { components := ["C"], delimiter := "::" } },
       { id := 3, type := NodeType.NODE_FUNCTION,
         nameHierarchy := { components := ["C", "M"], delimiter := "::" } }]
    edges := [{ id := 4, type := 0, sourceNodeId := 2, targetNodeId := 3 }] }

/-- A store for concrete runs: the chain 1 → 2 → 3 → 4 of calls (edge type 1), a side branch
2 → 5 and a self-loop on 1. -/
def chainGraphStore : GraphStore :=
  { nodes := [1, 2, 3, 4, 5].map fun i =>
      { id := i, type := NodeType.NODE_FUNCTION,
        nameHierarchy := { components := [toString i], delimiter := "::" } }
    edges :=
      [{ id := 12, type := 1, sourceNodeId := 1, targetNodeId := 2 },
       { id := 23, type := 1, sourceNodeId := 2, targetNodeId := 3 },
       { id := 34, type := 1, sourceNodeId := 3, targetNodeId := 4 },
       { id := 25, type := 1, sourceNodeId := 2, targetNodeId := 5 },
       { id := 11, type := 1, sourceNodeId := 1, targetNodeId := 1 }] }

/-- No edge type is followed against its direction. -/
def noneBidirectional (_type : Nat) : Bool := false

/-- A heap for concrete runs: the area at address 1 shows `abab`, every other one `Ba`. -/
def sampleHeap : Heap := fun t => if t = 1 then mkArea "abab" else mkArea "Ba"

/-! ## Concrete runs of the definitions -/

example : find "abcabc".toList "bc".toList 0 = some 1 := by decide

example : find "abcabc".toList "bc".toList 2 = some 4 := by decide

example : find "abcabc".toList "bc".toList 5 = none := by decide

example : find "abc".toList [] 3 = some 3 := by decide

example : find "abc".toList [] 4 = none := by decide

example : screenMatchBase 8 = 192 := by decide

example : (findScreenMatches 8 asciiLower oneLine 10 7 (mkArea "aXaa") "a".toList []).map
    (fun r => r.2) = some [(7, 193), (7, 194), (7, 195)] := by decide

example : (getGraphForTrail sampleGraphStore noneBidirectional 2 3 1 1).nodes.map Node.id
    = [2, 3] := by decide

example : (getGraphForTrail sampleGraphStore noneBidirectional 2 3 1 1).edges.map Edge.id
    = [4] := by decide

example : (getGraphForTrail sampleGraphStore noneBidirectional 3 2 1 1) =
    { nodes := [], edges := [] } := by decide

example : (getGraphForTrail sampleGraphStore noneBidirectional 2 3 1 0) =
    { nodes := [], edges := [] } := by decide

example : (getGraphForTrail sampleGraphStore noneBidirectional 2 2 1 0).nodes.map Node.id
    = [2] := by decide

example : (searchAreas 8 asciiLower oneLine 5
    [(1, "a".toList), (2, "b".toList), (1, "ab".toList)] (sampleHeap, [])).map (fun r => r.2) =
    some [(1, 193), (1, 194), (2, 195), (1, 196), (1, 197)] := by decide

example : (findScreenMatches 8 asciiLower oneLine 10 7 (mkArea "Aa") "A".toList []).map
    (fun r => r.2) = some [] := by decide
example : clearScreenMatches
    { mkArea "ab" with
      m_annotations :=
        [⟨0, 1, 1, 1, 1, 2, 9, LocationType.LOCATION_TOKEN, [3], false, false⟩,
         ⟨1, 2, 1, 2, 1, 3, 193, LocationType.LOCATION_SCREEN_SEARCH, [], false, false⟩] } =
    { mkArea "ab" with
      m_annotations :=
        [⟨0, 1, 1, 1, 1, 2, 9, LocationType.LOCATION_TOKEN, [3], false, false⟩]
      m_linesToRehighlight := [0]
      viewportUpdates := 1 } := by decide

example : ((getGraphForTrail chainGraphStore noneBidirectional 1 4 2 2).nodes.map Node.id,
    (getGraphForTrail chainGraphStore noneBidirectional 1 4 2 2).edges.map Edge.id) =
    ([1, 2, 3, 4], [12, 23, 34, 11]) := by decide
example : getGraphForTrail chainGraphStore noneBidirectional 1 4 2 1 =
    { nodes := [], edges := [] } := by decide
example : ((getGraphForTrail chainGraphStore noneBidirectional 1 1 2 0).nodes.map Node.id,
    (getGraphForTrail chainGraphStore noneBidirectional 1 1 2 0).edges.map Edge.id) =
    ([1], []) := by decide

example : screenMatchBase 64 = 3 * 2 ^ 62 := by decide
example : (searchAreas 64 asciiLower oneLine 5
    [(1, "a".toList), (2, "b".toList), (1, "ab".toList)] (sampleHeap, [])).map (fun r => r.2) =
    some [(1, 3 * 2 ^ 62 + 1), (1, 3 * 2 ^ 62 + 2), (2, 3 * 2 ^ 62 + 3), (1, 3 * 2 ^ 62 + 4),
      (1, 3 * 2 ^ 62 + 5)] := by decide
example : (removeBookmark sampleBookmarkStore 1).toOption.map
    (fun s => (s.nodeBookmarks.map NodeBookmark.id, s.edgeBookmarks.map EdgeBookmark.id)) =
    some ([], [3]) := by decide
example : (removeBookmark sampleBookmarkStore 2).toOption = none := by decide
example : (removeBookmarkCategory sampleBookmarkStore 5).toOption.map
    (fun s => (s.nodeBookmarks.map fun b => (b.id, b.categoryId),
      s.edgeBookmarks.map fun b => (b.id, b.categoryId),
      s.categories.map BookmarkCategory.id)) =
    some ([(1, 0)], [(3, 0)], [7]) := by decide
example : (removeBookmarkCategory sampleBookmarkStore 6).toOption = none := by decide
example : (updateBookmark sampleBookmarkStore 3 "call2" "seen" "later").toOption.map
    (fun s => s.edgeBookmarks.map fun b => (b.id, b.name, b.comment, b.categoryId)) =
    some [(3, "call2", "seen", 7)] := by decide
example : (updateBookmark sampleBookmarkStore 2 "x" "y" "later").toOption = none := by decide

/-! ## Lemmas on the arithmetic of ids -/

theorem screenMatchBase_eq (w : Nat) (hw : 2 ≤ w) : screenMatchBase w = 3 * 2 ^ (w - 2) := by
  obtain ⟨k, rfl⟩ : ∃ k, w = k + 2 := ⟨w - 2, by omega⟩
  have hx : 0 < 2 ^ k := Nat.two_pow_pos k
  have h4 : 2 ^ (k + 2) = 4 * 2 ^ k := by rw [pow_add]; ring
  simp only [screenMatchBase, idNot, Nat.add_sub_cancel, Nat.shiftRight_eq_div_pow, h4]
  generalize 2 ^ k = x at hx
  have h0 : 0 % (4 * x) = 0 := Nat.zero_mod _
  rw [h0]
  have h1 : (4 * x - 1 - 0) / 2 ^ 2 = x - 1 := by
    have : (2 : Nat) ^ 2 = 4 := by norm_num
    rw [this]; omega
  rw [h1, Nat.mod_eq_of_lt (by omega)]
  omega

theorem screenMatchId_eq (w size : Nat) (hw : 2 ≤ w) (h : size + 1 < 2 ^ (w - 2)) :
    screenMatchId w size = 3 * 2 ^ (w - 2) + size + 1 := by
  have h4 : 2 ^ w = 4 * 2 ^ (w - 2) := by
    obtain ⟨k, rfl⟩ : ∃ k, w = k + 2 := ⟨w - 2, by omega⟩
    rw [pow_add]; simp; ring
  rw [screenMatchId, screenMatchBase_eq w hw, Nat.mod_eq_of_lt]
  omega

theorem topTwoBitsSet_iff (w id : Nat) (hw : 2 ≤ w) (hid : id < 2 ^ w) :
    topTwoBitsSet w id = true ↔ 3 * 2 ^ (w - 2) ≤ id := by
  obtain ⟨k, rfl⟩ : ∃ k, w = k + 2 := ⟨w - 2, by omega⟩
  have hx : 0 < 2 ^ k := Nat.two_pow_pos k
  have h4 : 2 ^ (k + 2) = 4 * 2 ^ k := by rw [pow_add]; ring
  have h2 : 2 ^ (k + 1) = 2 ^ k * 2 := by rw [pow_succ]
  have e1 : k + 2 - 1 = k + 1 := rfl
  have e2 : k + 2 - 2 = k := rfl
  simp only [topTwoBitsSet, e1, e2, Nat.testBit_to_div_mod, Bool.and_eq_true,
    decide_eq_true_eq, h2, ← Nat.div_div_eq_div_mul]
  rw [h4] at hid
  generalize 2 ^ k = x at hx hid
  have hd : id / x < 4 := (Nat.div_lt_iff_lt_mul hx).2 hid
  have hle : 3 * x ≤ id ↔ 3 ≤ id / x := by
    rw [Nat.le_div_iff_mul_le hx]
  rw [hle]
  generalize id / x = d at hd
  interval_cases d <;> simp

/-! ## Lemmas on `find` -/

theorem occursAt_le {code query : List Char} {i : Nat} (h : occursAt code query i = true) :
    i + query.length ≤ code.length := by
  simp only [occursAt, Bool.and_eq_true, decide_eq_true_eq] at h
  exact h.1

theorem occursAt_take {code query : List Char} {i : Nat} (h : occursAt code query i = true) :
    (code.drop i).take query.length = query := by
  simp only [occursAt, Bool.and_eq_true, decide_eq_true_eq, beq_iff_eq] at h
  exact h.2

theorem occursAt_nil (code : List Char) (i : Nat) (h : i ≤ code.length) :
    occursAt code [] i = true := by
  simp [occursAt, h]

theorem findFrom_some {code query : List Char} :
    ∀ (n i r : Nat), findFrom code query n i = some r →
      i ≤ r ∧ occursAt code query r = true ∧ ∀ j, i ≤ j → j < r → occursAt code query j = false
  | 0, i, r, h => by simp [findFrom] at h
  | n + 1, i, r, h => by
    rw [findFrom] at h
    by_cases hocc : occursAt code query i = true
    · rw [if_pos hocc] at h
      cases h
      exact ⟨Nat.le_refl _, hocc, fun j h1 h2 => absurd h1 (by omega)⟩
    · rw [if_neg hocc] at h
      obtain ⟨h1, h2, h3⟩ := findFrom_some n (i + 1) r h
      refine ⟨by omega, h2, fun j hj1 hj2 => ?_⟩
      by_cases hji : j = i
      · subst hji; simpa using hocc
      · exact h3 j (by omega) hj2

theorem findFrom_none {code query : List Char} :
    ∀ (n i : Nat), findFrom code query n i = none →
      ∀ j, i ≤ j → j < i + n → occursAt code query j = false
  | 0, i, _, j, h1, h2 => absurd h1 (by omega)
  | n + 1, i, h, j, h1, h2 => by
    rw [findFrom] at h
    by_cases hocc : occursAt code query i = true
    · rw [if_pos hocc] at h; cases h
    · rw [if_neg hocc] at h
      by_cases hji : j = i
      · subst hji; simpa using hocc
      · exact findFrom_none n (i + 1) h j (by omega) (by omega)

theorem find_some {code query : List Char} {pos r : Nat} (h : find code query pos = some r) :
    pos ≤ r ∧ occursAt code query r = true ∧
      ∀ j, pos ≤ j → j < r → occursAt code query j = false :=
  findFrom_some _ _ _ h

theorem find_none {code query : List Char} {pos : Nat} (h : find code query pos = none) :
    ∀ j, pos ≤ j → occursAt code query j = false := by
  intro j hj
  by_cases hlt : j < pos + (code.length + 1 - pos)
  · exact findFrom_none _ _ h j hj hlt
  · cases hocc : occursAt code query j with
    | false => rfl
    | true => have := occursAt_le hocc; omega

theorem find_nil (code : List Char) (pos : Nat) (h : pos ≤ code.length) :
    find code [] pos = some pos := by
  obtain ⟨n, hn⟩ : ∃ n, code.length + 1 - pos = n + 1 := ⟨code.length - pos, by omega⟩
  rw [find, hn, findFrom, if_pos (occursAt_nil code pos h)]

/-! ## Lemmas on the loop -/

theorem annotationsFor_length (w : Nat) (tlc : Nat → Int × Int) (query : List Char) :
    ∀ (starts : List Nat) (size : Nat),
      (annotationsFor w tlc query size starts).length = starts.length
  | [], _ => rfl
  | _ :: rest, size => by
    simp [annotationsFor, annotationsFor_length w tlc query rest (size + 1)]

theorem annotationsFor_get (w : Nat) (tlc : Nat → Int × Int) (query : List Char) :
    ∀ (starts : List Nat) (size i : Nat) (a : Annotation),
      (annotationsFor w tlc query size starts).get? i = some a →
        ∃ s, starts.get? i = some s ∧ a = matchAnnotationAt w tlc query (size + i) s
  | [], _, _, a, h => by simp [annotationsFor] at h
  | s :: rest, size, 0, a, h => by
    simp only [annotationsFor, List.get?_cons_zero, Option.some.injEq] at h
    exact ⟨s, rfl, h.symm⟩
  | s :: rest, size, i + 1, a, h => by
    simp only [annotationsFor, List.get?_cons_succ] at h
    obtain ⟨s1, h1, h2⟩ := annotationsFor_get w tlc query rest (size + 1) i a h
    exact ⟨s1, by simpa using h1, by rw [h2]; congr 1; omega⟩

theorem annotationsFor_mem (w : Nat) (tlc : Nat → Int × Int) (query : List Char)
    (starts : List Nat) (size : Nat) (a : Annotation)
    (h : a ∈ annotationsFor w tlc query size starts) :
    ∃ i s, i < starts.length ∧ starts.get? i = some s ∧
      a = matchAnnotationAt w tlc query (size + i) s := by
  obtain ⟨i, hi⟩ := List.get?_of_mem h
  obtain ⟨s, h1, h2⟩ := annotationsFor_get w tlc query starts size i a hi
  exact ⟨i, s, (List.get?_eq_some.1 h1).1, h1, h2⟩

theorem exitState_cons (w : Nat) (tlc : Nat → Int × Int) (this : Nat) (query : List Char)
    (st : LoopState) (s : Nat) (rest : List Nat) (p : Option Nat) :
    exitState w tlc this query
      { pos := p
        m_annotations :=
          st.m_annotations ++ [matchAnnotationAt w tlc query st.screenMatches.length s]
        screenMatches :=
          st.screenMatches ++
            [(this, (matchAnnotationAt w tlc query st.screenMatches.length s).locationId)] } rest
      = exitState w tlc this query st (s :: rest) := by
  simp [exitState, annotationsFor]

/-- Whenever the loop is left, it has appended the annotations of a greedy scan. -/
theorem whileLoop_trace (w : Nat) (tlc : Nat → Int × Int) (this : Nat) (code query : List Char) :
    ∀ (fuel : Nat) (st st1 : LoopState) (p : Nat), st.pos = some p →
      whileLoop w tlc this code query fuel st = some st1 →
      ∃ starts, starts.length < fuel ∧ Greedy code query p starts ∧
        st1 = exitState w tlc this query st starts
  | 0, _, _, _, _, h => by simp [whileLoop] at h
  | fuel + 1, st, st1, p, hp, h => by
    rw [whileLoop, loopBody, hp] at h
    simp only at h
    cases hf : find code query p with
    | none =>
      rw [hf] at h
      simp only [Option.some.injEq] at h
      refine ⟨[], by simp, find_none hf, ?_⟩
      rw [← h]; simp [exitState, annotationsFor]
    | some s =>
      rw [hf] at h
      simp only at h
      obtain ⟨rest, h1, h2, h3⟩ := whileLoop_trace w tlc this code query fuel _ st1
        (s + query.length) rfl h
      obtain ⟨g1, g2, g3⟩ := find_some hf
      refine ⟨s :: rest, by simpa using h1, ⟨g1, g2, g3, h2⟩, ?_⟩
      rw [h3, exitState_cons]

/-- For a non-empty query the loop is left after finitely many passes: there is a greedy scan
`starts`, it fits into the code, and any fuel above its length lets the loop finish. -/
theorem whileLoop_total (w : Nat) (tlc : Nat → Int × Int) (this : Nat) (code query : List Char)
    (hq : query ≠ []) :
    ∀ (m : Nat) (st : LoopState) (p : Nat), st.pos = some p → code.length + 1 - p ≤ m →
      ∃ starts, Greedy code query p starts ∧
        (p ≤ code.length → p + starts.length * query.length ≤ code.length) ∧
        (code.length < p → starts = []) ∧
        ∀ fuel, starts.length < fuel →
          whileLoop w tlc this code query fuel st = some (exitState w tlc this query st starts) := by
  have hqlen : 0 < query.length := List.length_pos.2 hq
  intro m
  induction m with
  | zero =>
    intro st p hp hm
    have hnone : find code query p = none := by
      have : code.length + 1 - p = 0 := by omega
      rw [find, this, findFrom]
    refine ⟨[], find_none hnone, by simp, fun _ => rfl, fun fuel hfuel => ?_⟩
    obtain ⟨f, rfl⟩ : ∃ f, fuel = f + 1 := ⟨fuel - 1, by simp at hfuel; omega⟩
    rw [whileLoop, loopBody, hp]
    simp [hnone, exitState, annotationsFor]
  | succ m ih =>
    intro st p hp hm
    cases hf : find code query p with
    | none =>
      refine ⟨[], find_none hf, by simp, fun _ => rfl, fun fuel hfuel => ?_⟩
      obtain ⟨f, rfl⟩ : ∃ f, fuel = f + 1 := ⟨fuel - 1, by simp at hfuel; omega⟩
      rw [whileLoop, loopBody, hp]
      simp [hf, exitState, annotationsFor]
    | some s =>
      obtain ⟨g1, g2, g3⟩ := find_some hf
      have hs := occursAt_le g2
      obtain ⟨rest, r1, r2, _, r4⟩ := ih
        { pos := some (s + query.length)
          m_annotations :=
            st.m_annotations ++ [matchAnnotationAt w tlc query st.screenMatches.length s]
          screenMatches :=
            st.screenMatches ++
              [(this, (matchAnnotationAt w tlc query st.screenMatches.length s).locationId)] }
        (s + query.length) rfl (by omega)
      refine ⟨s :: rest, ⟨g1, g2, g3, r1⟩, fun _ => ?_, fun h => absurd h (by omega),
        fun fuel hfuel => ?_⟩
      · have := r2 hs
        simp only [List.length_cons, Nat.add_mul, Nat.one_mul]
        omega
      · obtain ⟨f, rfl⟩ : ∃ f, fuel = f + 1 := ⟨fuel - 1, by simp at hfuel; omega⟩
        rw [whileLoop, loopBody, hp]
        simp only [hf]
        rw [r4 f (by simpa using hfuel), exitState_cons]

/-! ## Lemmas on `findScreenMatches` -/

/-- A finished call has appended the annotations of a greedy scan of the lower-cased code to
`m_annotations`, and their ids, paired with `this`, to the vector. -/
theorem findScreenMatches_trace (w : Nat) (toLowerCase : List Char → List Char)
    (toLineColumn : Nat → Nat → Int × Int) (fuel this : Nat) (area area1 : QtCodeArea)
    (query : List Char) (sm sm1 : ScreenMatches)
    (h : findScreenMatches w toLowerCase toLineColumn fuel this area query sm = some (area1, sm1)) :
    ∃ starts, starts.length < fuel ∧ Greedy (toLowerCase area.m_code) query 0 starts ∧
      area1.m_annotations =
        area.m_annotations ++ annotationsFor w (toLineColumn this) query sm.length starts ∧
      sm1 = sm ++ (annotationsFor w (toLineColumn this) query sm.length starts).map
        (fun a => (this, a.locationId)) ∧
      area1.m_code = area.m_code := by
  simp only [findScreenMatches] at h
  cases hl : whileLoop w (toLineColumn this) this (toLowerCase area.m_code) query fuel
      { pos := some 0, m_annotations := area.m_annotations, screenMatches := sm } with
  | none => rw [hl] at h; cases h
  | some st =>
    rw [hl] at h
    simp only [Option.some.injEq, Prod.mk.injEq] at h
    obtain ⟨starts, h1, h2, h3⟩ :=
      whileLoop_trace w (toLineColumn this) this _ query fuel _ st 0 rfl hl
    refine ⟨starts, h1, h2, ?_, ?_, ?_⟩
    · rw [← h.1, h3]; rfl
    · rw [← h.2, h3]; rfl
    · rw [← h.1]

/-- A call with a non-empty query finishes as soon as the fuel exceeds the number of matches. -/
theorem findScreenMatches_total (w : Nat) (toLowerCase : List Char → List Char)
    (toLineColumn : Nat → Nat → Int × Int) (this : Nat) (area : QtCodeArea)
    (query : List Char) (sm : ScreenMatches) (hq : query ≠ []) :
    ∃ starts, Greedy (toLowerCase area.m_code) query 0 starts ∧
      starts.length * query.length ≤ (toLowerCase area.m_code).length ∧
      ∀ fuel, starts.length < fuel →
        ∃ area1, findScreenMatches w toLowerCase toLineColumn fuel this area query sm =
          some (area1, sm ++ (annotationsFor w (toLineColumn this) query sm.length starts).map
            (fun a => (this, a.locationId))) ∧
          area1.m_annotations =
            area.m_annotations ++ annotationsFor w (toLineColumn this) query sm.length starts := by
  obtain ⟨starts, h1, h2, _, h4⟩ := whileLoop_total w (toLineColumn this) this
    (toLowerCase area.m_code) query hq _
    { pos := some 0, m_annotations := area.m_annotations, screenMatches := sm } 0 rfl
    (Nat.le_refl _)
  refine ⟨starts, h1, by simpa using h2 (Nat.zero_le _), fun fuel hfuel => ?_⟩
  simp only [findScreenMatches, h4 fuel hfuel]
  exact ⟨_, rfl, rfl⟩

theorem matchAnnotationAt_id_high (w size s : Nat) (tlc : Nat → Int × Int) (query : List Char)
    (hw : 2 ≤ w) (h : size + 1 < 2 ^ (w - 2)) :
    3 * 2 ^ (w - 2) ≤ (matchAnnotationAt w tlc query size s).locationId ∧
      (matchAnnotationAt w tlc query size s).locationId < 2 ^ w ∧
      topTwoBitsSet w (matchAnnotationAt w tlc query size s).locationId = true := by
  have h4 : 2 ^ w = 4 * 2 ^ (w - 2) := by
    obtain ⟨k, rfl⟩ : ∃ k, w = k + 2 := ⟨w - 2, by omega⟩
    rw [pow_add]; simp; ring
  have hid : (matchAnnotationAt w tlc query size s).locationId = 3 * 2 ^ (w - 2) + size + 1 :=
    screenMatchId_eq w size hw h
  have h1 : 3 * 2 ^ (w - 2) ≤ (matchAnnotationAt w tlc query size s).locationId := by omega
  have h2 : (matchAnnotationAt w tlc query size s).locationId < 2 ^ w := by omega
  exact ⟨h1, h2, (topTwoBitsSet_iff w _ hw h2).2 h1⟩

/-! ## Screen-match ids lie in the reserved range -/

/-- C1: for an `Id` of `w ≥ 2` bits, when a call of `findScreenMatches` finishes and the vector
then holds fewer than `2 ^ (w - 2)` entries (the `n` it held on entry plus the `k` matches found),
every `locationId` the call assigned, in the annotations it appended and in the entries it pushed
to the vector, is at least `3 * 2 ^ (w - 2)` and below `2 ^ w`, has its two most significant bits
set, and so differs from every id whose top two bits are not both 1. -/
theorem findScreenMatches_ids_high_bits (w : Nat) (toLowerCase : List Char → List Char)
    (toLineColumn : Nat → Nat → Int × Int) (fuel this : Nat) (area area1 : QtCodeArea)
    (query : List Char) (sm sm1 : ScreenMatches) (hw : 2 ≤ w)
    (hrun : findScreenMatches w toLowerCase toLineColumn fuel this area query sm =
      some (area1, sm1))
    (hbound : sm1.length < 2 ^ (w - 2)) :
    (∀ a ∈ area1.m_annotations.drop area.m_annotations.length,
      3 * 2 ^ (w - 2) ≤ a.locationId ∧ a.locationId < 2 ^ w ∧
        topTwoBitsSet w a.locationId = true ∧
        ∀ id, topTwoBitsSet w id = false → a.locationId ≠ id) ∧
    (∀ e ∈ sm1.drop sm.length,
      3 * 2 ^ (w - 2) ≤ e.2 ∧ e.2 < 2 ^ w ∧ topTwoBitsSet w e.2 = true ∧
        ∀ id, topTwoBitsSet w id = false → e.2 ≠ id) := by
  obtain ⟨starts, _, _, h3, h4, _⟩ :=
    findScreenMatches_trace w toLowerCase toLineColumn fuel this area area1 query sm sm1 hrun
  have hlen : sm.length + starts.length < 2 ^ (w - 2) := by
    rw [h4] at hbound
    simpa [annotationsFor_length] using hbound
  have key : ∀ a ∈ annotationsFor w (toLineColumn this) query sm.length starts,
      3 * 2 ^ (w - 2) ≤ a.locationId ∧ a.locationId < 2 ^ w ∧
        topTwoBitsSet w a.locationId = true ∧
        ∀ id, topTwoBitsSet w id = false → a.locationId ≠ id := by
    intro a ha
    obtain ⟨i, s, hi, _, rfl⟩ := annotationsFor_mem w _ query starts sm.length a ha
    obtain ⟨g1, g2, g3⟩ :=
      matchAnnotationAt_id_high w (sm.length + i) s (toLineColumn this) query hw (by omega)
    refine ⟨g1, g2, g3, fun id hid heq => ?_⟩
    rw [heq, hid] at g3
    cases g3
  constructor
  · intro a ha
    rw [h3, List.drop_left] at ha
    exact key a ha
  · intro e he
    rw [h4, List.drop_left] at he
    obtain ⟨a, ha, rfl⟩ := List.mem_map.1 he
    exact key a ha

/-- Witness for C1: a 64-bit `Id`, the code `aXaa`, the query `a` and an empty vector. -/
theorem findScreenMatches_ids_high_bits_witness :
    (∀ a ∈ ([⟨0, 1, 1, 1, 1, 2, 3 * 2 ^ 62 + 1, LocationType.LOCATION_SCREEN_SEARCH, [], false,
            false⟩,
        ⟨2, 3, 1, 3, 1, 4, 3 * 2 ^ 62 + 2, LocationType.LOCATION_SCREEN_SEARCH, [], false,
            false⟩,
        ⟨3, 4, 1, 4, 1, 5, 3 * 2 ^ 62 + 3, LocationType.LOCATION_SCREEN_SEARCH, [], false,
            false⟩] :
          List Annotation).drop 0,
      3 * 2 ^ (64 - 2) ≤ a.locationId ∧ a.locationId < 2 ^ 64 ∧
        topTwoBitsSet 64 a.locationId = true ∧
        ∀ id, topTwoBitsSet 64 id = false → a.locationId ≠ id) ∧
    (∀ e ∈ ([(7, 3 * 2 ^ 62 + 1), (7, 3 * 2 ^ 62 + 2), (7, 3 * 2 ^ 62 + 3)] :
        ScreenMatches).drop 0,
      3 * 2 ^ (64 - 2) ≤ e.2 ∧ e.2 < 2 ^ 64 ∧ topTwoBitsSet 64 e.2 = true ∧
        ∀ id, topTwoBitsSet 64 id = false → e.2 ≠ id) :=
  findScreenMatches_ids_high_bits 64 asciiLower oneLine 10 7 (mkArea "aXaa")
    { m_code := "aXaa".toList, m_startLineNumber := 1,
      m_annotations :=
        [⟨0, 1, 1, 1, 1, 2, 3 * 2 ^ 62 + 1, LocationType.LOCATION_SCREEN_SEARCH, [], false,
            false⟩,
         ⟨2, 3, 1, 3, 1, 4, 3 * 2 ^ 62 + 2, LocationType.LOCATION_SCREEN_SEARCH, [], false,
            false⟩,
         ⟨3, 4, 1, 4, 1, 5, 3 * 2 ^ 62 + 3, LocationType.LOCATION_SCREEN_SEARCH, [], false,
            false⟩],
      m_linesToRehighlight := [], viewportUpdates := 1 }
    "a".toList [] [(7, 3 * 2 ^ 62 + 1), (7, 3 * 2 ^ 62 + 2), (7, 3 * 2 ^ 62 + 3)]
    (by decide) (by decide) (by decide)

/-! ## The matches are the greedy non-overlapping occurrences -/

theorem greedy_each (w : Nat) (tlc : Nat → Int × Int) (code query : List Char) :
    ∀ (starts : List Nat) (p size : Nat), Greedy code query p starts →
      ∀ a ∈ annotationsFor w tlc query size starts,
        occursAt code query a.start = true ∧ a.«end» = a.start + query.length ∧
          a.locationType = LocationType.LOCATION_SCREEN_SEARCH ∧ a.isActive = false ∧
          a.isFocused = false
  | [], _, _, _, a, ha => by simp [annotationsFor] at ha
  | s :: rest, p, size, hg, a, ha => by
    simp only [annotationsFor, List.mem_cons] at ha
    rcases ha with rfl | ha
    · exact ⟨hg.2.1, rfl, rfl, rfl, rfl⟩
    · exact greedy_each w tlc code query rest _ _ hg.2.2.2 a ha

theorem greedy_between (w : Nat) (tlc : Nat → Int × Int) (code query : List Char) :
    ∀ (starts : List Nat) (p size : Nat), Greedy code query p starts →
      ∀ (l1 : List Annotation) (a b : Annotation) (l2 : List Annotation),
        annotationsFor w tlc query size starts = l1 ++ a :: b :: l2 →
        a.start + query.length ≤ b.start ∧
          ∀ j, a.«end» ≤ j → j < b.start → occursAt code query j = false
  | [], _, _, _, l1, a, b, l2, h => by simp [annotationsFor] at h
  | [s], _, _, _, l1, a, b, l2, h => by
    have := congrArg List.length h
    simp [annotationsFor] at this
    omega
  | s :: t :: rest, p, size, hg, [], a, b, l2, h => by
    simp only [annotationsFor, List.nil_append, List.cons.injEq] at h
    obtain ⟨rfl, rfl, _⟩ := h
    exact ⟨hg.2.2.2.1, hg.2.2.2.2.2.1⟩
  | s :: t :: rest, p, size, hg, x :: l1, a, b, l2, h => by
    rw [annotationsFor, List.cons_append, List.cons.injEq] at h
    exact greedy_between w tlc code query (t :: rest) _ _ hg.2.2.2 l1 a b l2 h.2

theorem greedy_last (w : Nat) (tlc : Nat → Int × Int) (code query : List Char) :
    ∀ (starts : List Nat) (p size : Nat), Greedy code query p starts →
      ∀ (l1 : List Annotation) (a : Annotation),
        annotationsFor w tlc query size starts = l1 ++ [a] →
        ∀ j, a.«end» ≤ j → occursAt code query j = false
  | [], _, _, _, l1, a, h => by simp [annotationsFor] at h
  | [s], p, size, hg, [], a, h => by
    simp only [annotationsFor, List.nil_append, List.cons.injEq, and_true] at h
    subst h
    exact hg.2.2.2
  | [s], p, size, hg, x :: l1, a, h => by
    have := congrArg List.length h
    simp [annotationsFor] at this
  | s :: t :: rest, p, size, hg, [], a, h => by
    have := congrArg List.length h
    simp [annotationsFor] at this
  | s :: t :: rest, p, size, hg, x :: l1, a, h => by
    rw [annotationsFor, List.cons_append, List.cons.injEq] at h
    exact greedy_last w tlc code query (t :: rest) _ _ hg.2.2.2 l1 a h.2

/-- C9: for every code text and every non-empty query there is a list `new` of annotations such
that every call with more fuel than `new.length` finishes having appended exactly `new` to
`m_annotations`, and `new` is the greedy left-to-right list of non-overlapping occurrences of
the query, taken verbatim, in the lower-cased code: each annotation has
`end = start + |query|`, lies inside the lower-cased code and spans a copy of the query there,
is of type `LOCATION_SCREEN_SEARCH` with `isActive` and `isFocused` false; consecutive starts
differ by at least `|query|`; and the query occurs at no position between the end of one match
and the start of the next, before the first match, or at or after the end of the last one (nor
anywhere when `new` is empty). -/
theorem findScreenMatches_greedy_occurrences (w : Nat) (toLowerCase : List Char → List Char)
    (toLineColumn : Nat → Nat → Int × Int) (this : Nat) (area : QtCodeArea)
    (query : List Char) (sm : ScreenMatches) (hq : query ≠ []) :
    ∃ new : List Annotation,
      (∀ fuel, new.length < fuel →
        ∃ area1 sm1, findScreenMatches w toLowerCase toLineColumn fuel this area query sm =
          some (area1, sm1) ∧ area1.m_annotations = area.m_annotations ++ new) ∧
      (∀ a ∈ new, a.«end» = a.start + query.length ∧
        a.«end» ≤ (toLowerCase area.m_code).length ∧
        ((toLowerCase area.m_code).drop a.start).take (a.«end» - a.start) = query ∧
        a.locationType = LocationType.LOCATION_SCREEN_SEARCH ∧
        a.isActive = false ∧ a.isFocused = false) ∧
      (∀ l1 a b l2, new = l1 ++ a :: b :: l2 →
        a.start + query.length ≤ b.start ∧
          ∀ j, a.«end» ≤ j → j < b.start → occursAt (toLowerCase area.m_code) query j = false) ∧
      (∀ a l2, new = a :: l2 →
        ∀ j, j < a.start → occursAt (toLowerCase area.m_code) query j = false) ∧
      (∀ l1 a, new = l1 ++ [a] →
        ∀ j, a.«end» ≤ j → occursAt (toLowerCase area.m_code) query j = false) ∧
      (new = [] → ∀ j, occursAt (toLowerCase area.m_code) query j = false) := by
  obtain ⟨starts, hg, _, hrun⟩ :=
    findScreenMatches_total w toLowerCase toLineColumn this area query sm hq
  refine ⟨annotationsFor w (toLineColumn this) query sm.length starts, ?_, ?_, ?_, ?_, ?_, ?_⟩
  · intro fuel hfuel
    rw [annotationsFor_length] at hfuel
    obtain ⟨area1, h1, h2⟩ := hrun fuel hfuel
    exact ⟨area1, _, h1, h2⟩
  · intro a ha
    obtain ⟨h1, h2, h3, h4, h5⟩ := greedy_each w _ _ query starts 0 sm.length hg a ha
    refine ⟨h2, ?_, ?_, h3, h4, h5⟩
    · rw [h2]; exact occursAt_le h1
    · rw [h2, Nat.add_sub_cancel_left]; exact occursAt_take h1
  · exact greedy_between w _ _ query starts 0 sm.length hg
  · intro a l2 h j hj
    cases starts with
    | nil => simp [annotationsFor] at h
    | cons s rest =>
      simp only [annotationsFor, List.cons.injEq] at h
      obtain ⟨rfl, _⟩ := h
      exact hg.2.2.1 j (Nat.zero_le _) hj
  · exact greedy_last w _ _ query starts 0 sm.length hg
  · intro h j
    cases starts with
    | nil => exact hg j (Nat.zero_le _)
    | cons s rest => simp [annotationsFor] at h

/-- Witness for C9: the code `aXaa` searched for `a` with a 64-bit `Id`. -/
theorem findScreenMatches_greedy_occurrences_witness :
    "a".toList ≠ [] ∧
    ∃ new : List Annotation,
      (∀ fuel, new.length < fuel →
        ∃ area1 sm1, findScreenMatches 64 asciiLower oneLine fuel 7 (mkArea "aXaa") "a".toList [] =
          some (area1, sm1) ∧ area1.m_annotations = (mkArea "aXaa").m_annotations ++ new) ∧
      (∀ a ∈ new, a.«end» = a.start + "a".toList.length ∧
        a.«end» ≤ (asciiLower (mkArea "aXaa").m_code).length ∧
        ((asciiLower (mkArea "aXaa").m_code).drop a.start).take (a.«end» - a.start) =
          "a".toList ∧
        a.locationType = LocationType.LOCATION_SCREEN_SEARCH ∧
        a.isActive = false ∧ a.isFocused = false) :=
  ⟨by decide,
    (findScreenMatches_greedy_occurrences 64 asciiLower oneLine 7 (mkArea "aXaa") "a".toList []
      (by decide)).imp fun _ h => ⟨h.1, h.2.1⟩⟩

/-! ## Termination of the loop -/

theorem loopBody_nil (w : Nat) (tlc : Nat → Int × Int) (this : Nat) (code : List Char)
    (st : LoopState) (p : Nat) (hp : st.pos = some p) (hle : p ≤ code.length) :
    loopBody w tlc this code [] st =
      some { pos := some p
             m_annotations :=
               st.m_annotations ++ [matchAnnotationAt w tlc [] st.screenMatches.length p]
             screenMatches :=
               st.screenMatches ++
                 [(this, (matchAnnotationAt w tlc [] st.screenMatches.length p).locationId)] } := by
  rw [loopBody, hp]
  simp [find_nil code p hle]

theorem whileLoop_nil (w : Nat) (tlc : Nat → Int × Int) (this : Nat) (code : List Char) :
    ∀ (fuel : Nat) (st : LoopState) (p : Nat), st.pos = some p → p ≤ code.length →
      whileLoop w tlc this code [] fuel st = none
  | 0, _, _, _, _ => rfl
  | fuel + 1, st, p, hp, hle => by
    rw [whileLoop, loopBody_nil w tlc this code st p hp hle]
    exact whileLoop_nil w tlc this code fuel _ p rfl hle

theorem iterate_nil (w : Nat) (tlc : Nat → Int × Int) (this : Nat) (code : List Char) :
    ∀ (n : Nat) (st : LoopState) (p : Nat), st.pos = some p → p ≤ code.length →
      ∃ st1, iterate w tlc this code [] n st = some st1 ∧ st1.pos = some p ∧
        st1.m_annotations.length = st.m_annotations.length + n ∧
        st1.screenMatches.length = st.screenMatches.length + n
  | 0, st, p, hp, _ => ⟨st, rfl, hp, rfl, rfl⟩
  | n + 1, st, p, hp, hle => by
    rw [iterate, loopBody_nil w tlc this code st p hp hle]
    obtain ⟨st1, h1, h2, h3, h4⟩ := iterate_nil w tlc this code n
      { pos := some p
        m_annotations :=
          st.m_annotations ++ [matchAnnotationAt w tlc [] st.screenMatches.length p]
        screenMatches :=
          st.screenMatches ++
            [(this, (matchAnnotationAt w tlc [] st.screenMatches.length p).locationId)] }
      p rfl hle
    refine ⟨st1, h1, h2, ?_, ?_⟩
    · rw [h3]; simp; omega
    · rw [h4]; simp; omega

theorem loopBody_advances (w : Nat) (tlc : Nat → Int × Int) (this : Nat) (code query : List Char)
    (st st1 : LoopState) (p : Nat) (hp : st.pos = some p)
    (h : loopBody w tlc this code query st = some st1) :
    ∃ s, find code query p = some s ∧ p ≤ s ∧ st1.pos = some (s + query.length) ∧
      st1.m_annotations.length = st.m_annotations.length + 1 := by
  rw [loopBody, hp] at h
  simp only at h
  cases hf : find code query p with
  | none => rw [hf] at h; cases h
  | some s =>
    rw [hf] at h
    simp only [Option.some.injEq] at h
    refine ⟨s, rfl, (find_some hf).1, ?_, ?_⟩
    · rw [← h]
    · rw [← h]; simp

/-- C8: the loop of `findScreenMatches` is left exactly when the query is non-empty.
For a non-empty query every pass that finds a match at `s` continues at `s + |query|`, which is
beyond the position the pass started from, and there is a number `k ≤ |code| / |query|` (`code`
the lower-cased text the loop scans) such that every call with more than `k` units of fuel
finishes having appended exactly `k` annotations and `k` vector entries.
For the empty query a pass that starts at a position `p` inside the code finds its match at `p`
and continues at `p`; no amount of fuel lets the call finish, and after any number `n` of passes
the loop is still running at position 0 with `n` annotations appended. -/
theorem findScreenMatches_terminates_iff_query_nonempty (w : Nat)
    (toLowerCase : List Char → List Char) (toLineColumn : Nat → Nat → Int × Int) (this : Nat)
    (area : QtCodeArea) (query : List Char) (sm : ScreenMatches) :
    (query ≠ [] →
      (∀ st st1 p, st.pos = some p →
        loopBody w (toLineColumn this) this (toLowerCase area.m_code) query st = some st1 →
        ∃ s, p ≤ s ∧ st1.pos = some (s + query.length) ∧ p < s + query.length) ∧
      ∃ k, k ≤ (toLowerCase area.m_code).length / query.length ∧
        ∀ fuel, k < fuel →
          ∃ area1 sm1, findScreenMatches w toLowerCase toLineColumn fuel this area query sm =
            some (area1, sm1) ∧
            area1.m_annotations.length = area.m_annotations.length + k ∧
            sm1.length = sm.length + k) ∧
    (query = [] →
      (∀ st p, st.pos = some p → p ≤ (toLowerCase area.m_code).length →
        ∃ st1, loopBody w (toLineColumn this) this (toLowerCase area.m_code) query st = some st1 ∧
          st1.pos = some p) ∧
      (∀ fuel, findScreenMatches w toLowerCase toLineColumn fuel this area query sm = none) ∧
      ∀ n, ∃ st, iterate w (toLineColumn this) this (toLowerCase area.m_code) query n
          { pos := some 0, m_annotations := area.m_annotations, screenMatches := sm } = some st ∧
        st.pos = some 0 ∧ st.m_annotations.length = area.m_annotations.length + n ∧
        st.screenMatches.length = sm.length + n) := by
  constructor
  · intro hq
    have hqlen : 0 < query.length := List.length_pos.2 hq
    constructor
    · intro st st1 p hp h
      obtain ⟨s, _, h2, h3, _⟩ := loopBody_advances w _ this _ query st st1 p hp h
      exact ⟨s, h2, h3, by omega⟩
    · obtain ⟨starts, _, hle, hrun⟩ :=
        findScreenMatches_total w toLowerCase toLineColumn this area query sm hq
      refine ⟨starts.length, (Nat.le_div_iff_mul_le hqlen).2 hle, fun fuel hfuel => ?_⟩
      obtain ⟨area1, h1, h2⟩ := hrun fuel hfuel
      refine ⟨area1, _, h1, ?_, ?_⟩
      · rw [h2]; simp [annotationsFor_length]
      · simp [annotationsFor_length]
  · rintro rfl
    refine ⟨fun st p hp hle => ?_, fun fuel => ?_, fun n => ?_⟩
    · exact ⟨_, loopBody_nil w _ this _ st p hp hle, rfl⟩
    · simp only [findScreenMatches]
      rw [whileLoop_nil w (toLineColumn this) this (toLowerCase area.m_code) fuel _ 0 rfl
        (Nat.zero_le _)]
    · exact iterate_nil w (toLineColumn this) this (toLowerCase area.m_code) n _ 0 rfl
        (Nat.zero_le _)

/-- Witness for C8: the code `aXaa` searched for `a` (three matches, `3 ≤ 4 / 1`) and searched
for the empty string. -/
theorem findScreenMatches_terminates_iff_query_nonempty_witness :
    ("a".toList ≠ [] ∧
      ∃ k, k ≤ (asciiLower (mkArea "aXaa").m_code).length / "a".toList.length ∧
        ∀ fuel, k < fuel →
          ∃ area1 sm1, findScreenMatches 64 asciiLower oneLine fuel 7 (mkArea "aXaa") "a".toList
              [] = some (area1, sm1) ∧
            area1.m_annotations.length = (mkArea "aXaa").m_annotations.length + k ∧
            sm1.length = ([] : ScreenMatches).length + k) ∧
    (([] : List Char) = [] ∧
      ∀ fuel, findScreenMatches 64 asciiLower oneLine fuel 7 (mkArea "aXaa") [] [] = none) :=
  ⟨⟨by decide,
      ((findScreenMatches_terminates_iff_query_nonempty 64 asciiLower oneLine 7 (mkArea "aXaa")
        "a".toList []).1 (by decide)).2⟩,
    ⟨rfl,
      ((findScreenMatches_terminates_iff_query_nonempty 64 asciiLower oneLine 7 (mkArea "aXaa")
        [] []).2 rfl).2.1⟩⟩

/-! ## The panning guard of `mouseReleaseEvent` -/

/-- What the guard does guarantee: once `m_panningDistance` has reached the threshold, a
left-button release only resets the two flags and the cursor shape and makes no call. -/
theorem mouseReleaseEvent_of_panned (st : MouseState) (event : QMouseEvent)
    (hb : event.button = MouseButton.LeftButton)
    (hd : panningThreshold ≤ st.m_panningDistance) :
    mouseReleaseEvent st event =
      { st with m_isSelecting := false, m_isPanning := false,
                cursor := CursorShape.ArrowCursor } := by
  simp [mouseReleaseEvent, hb, not_lt.2 hd]

theorem mouseMoveEvent_distance (st : MouseState) (event : QMouseEvent) :
    (mouseMoveEvent st event).m_panningDistance =
        st.m_panningDistance +
          (((event.x - st.m_oldMousePosition.1) + (event.y - st.m_oldMousePosition.2)).natAbs
            : Int) ∧
      (mouseMoveEvent st event).m_oldMousePosition = (event.x, event.y) := by
  unfold mouseMoveEvent
  simp only
  split_ifs <;> (try split) <;> exact ⟨rfl, rfl⟩

/-- After a left-button press and any moves, `m_panningDistance` is the sum of
`|deltaX + deltaY|` over the moves. -/
theorem panningDistance_after_moves (moves : List QMouseEvent) :
    ∀ st : MouseState, (moves.foldl mouseMoveEvent st).m_panningDistance =
      st.m_panningDistance + accumulatedDistance st.m_oldMousePosition moves := by
  induction moves with
  | nil => intro st; simp [accumulatedDistance]
  | cons e rest ih =>
    intro st
    rw [List.foldl_cons, ih, (mouseMoveEvent_distance st e).1, (mouseMoveEvent_distance st e).2,
      accumulatedDistance]
    omega

/-- C7, the code at the failing input: a shift-press at `(10, 10)` starts panning, the mouse is
dragged to `(20, 0)` and released there over the annotation 42. The distance moved,
`|10| + |-10| = 20`, is above the threshold 5, yet `m_panningDistance` is `|10 + (-10)| = 0` and
the release calls `activateAnnotations`. -/
theorem mouseReleaseEvent_after_diagonal_pan :
    panningThreshold ≤
        manhattanDistance (10, 10) [{ leftAt 20 0 true false with
          button := MouseButton.NoButton, interactiveAnnotations := [42] }] ∧
      (pressMoveRelease idleMouse (leftAt 10 10 true false)
        [{ leftAt 20 0 true false with
            button := MouseButton.NoButton, interactiveAnnotations := [42] }]
        { leftAt 20 0 false false with interactiveAnnotations := [42] }).calls =
        [Call.clearSelection, Call.setScrollBarValue 10, Call.hideToolTip,
          Call.setHoveredAnnotations [42], Call.activateAnnotations [42]] := by
  decide

/-! ## The storage facade -/

theorem filter_id_eq_singleton :
    ∀ (nodes : List Node) (n : Node), n ∈ nodes → (nodes.map Node.id).Nodup →
      nodes.filter (fun m => decide (m.id = n.id)) = [n]
  | [], _, h, _ => by cases h
  | x :: rest, n, h, hnd => by
    rw [List.map_cons, List.nodup_cons] at hnd
    rcases List.mem_cons.1 h with rfl | h
    · have hnone : rest.filter (fun m => decide (m.id = n.id)) = [] := by
        rw [List.filter_eq_nil_iff]
        intro m hm hmid
        exact hnd.1 (by rw [← of_decide_eq_true hmid]; exact List.mem_map_of_mem _ hm)
      simp [List.filter_cons, hnone]
    · have hx : x.id ≠ n.id := fun e => hnd.1 (by rw [e]; exact List.mem_map_of_mem _ h)
      simp [List.filter_cons, hx, filter_id_eq_singleton rest n h hnd.2]

/-- C5: in a store whose node ids are pairwise distinct, for every node `a` of the store, every
edge-type mask and every choice of the edge types followed in both directions, the trail graph
from `a` to `a` with depth 0 consists of the single node `a` and has no edges. -/
theorem getGraphForTrail_self_depth_zero (store : GraphStore) (bidirectional : Nat → Bool)
    (mask : Nat) (a : Node) (ha : a ∈ store.nodes) (hids : (store.nodes.map Node.id).Nodup) :
    getGraphForTrail store bidirectional a.id a.id mask 0 = { nodes := [a], edges := [] } := by
  simp [getGraphForTrail, searchSide, trailPart, filter_id_eq_singleton store.nodes a ha hids]

/-- Witness for C5: the class node of the sample store, with the mask of edge type 0. -/
theorem getGraphForTrail_self_depth_zero_witness :
    getGraphForTrail sampleGraphStore noneBidirectional 2 2 1 0 =
      { nodes := [{ id := 2, type := NodeType.NODE_CLASS,
                    nameHierarchy := { components := ["C"], delimiter := "::" } }],
        edges := [] } :=
  getGraphForTrail_self_depth_zero sampleGraphStore noneBidirectional 1
    { id := 2, type := NodeType.NODE_CLASS,
      nameHierarchy := { components := ["C"], delimiter := "::" } }
    (by decide) (by decide)

/-- C6: in a store in which distinct nodes never share a name hierarchy, for every node `n` of
the store, looking up the node id of the name hierarchy returned for `n.id` gives `n.id`. -/
theorem getNodeIdForNameHierarchy_roundtrip (store : GraphStore)
    (hdist : DistinctNameHierarchies store) (n : Node) (hn : n ∈ store.nodes) :
    getNodeIdForNameHierarchy store (getNameHierarchyForNodeId store n.id) = n.id := by
  simp only [getNameHierarchyForNodeId]
  cases h1 : store.nodes.find? (fun m => decide (m.id = n.id)) with
  | none =>
    have := List.find?_eq_none.1 h1 n hn
    simp at this
  | some n1 =>
    have hid : n1.id = n.id := by simpa using List.find?_some h1
    have hmem1 : n1 ∈ store.nodes := List.mem_of_find?_eq_some h1
    simp only [getNodeIdForNameHierarchy]
    cases h2 : store.nodes.find? (fun m => decide (m.nameHierarchy = n1.nameHierarchy)) with
    | none =>
      have := List.find?_eq_none.1 h2 n1 hmem1
      simp at this
    | some n2 =>
      have hnh : n2.nameHierarchy = n1.nameHierarchy := by simpa using List.find?_some h2
      have hmem2 : n2 ∈ store.nodes := List.mem_of_find?_eq_some h2
      rw [hdist n2 hmem2 n1 hmem1 hnh]
      exact hid

/-- Witness for C6: the method node of the sample store. -/
theorem getNodeIdForNameHierarchy_roundtrip_witness :
    getNodeIdForNameHierarchy sampleGraphStore (getNameHierarchyForNodeId sampleGraphStore 3)
      = 3 :=
  getNodeIdForNameHierarchy_roundtrip sampleGraphStore (by decide)
    { id := 3, type := NodeType.NODE_FUNCTION,
      nameHierarchy := { components := ["C", "M"], delimiter := "::" } } (by decide)

/-! ## Bookmark mutations on an absent id -/

theorem hasBookmark_of_absent (s : BookmarkStore) (id : Nat) (h : bookmarkAbsent s id) :
    hasBookmark s id = false := by
  simp only [hasBookmark, Bool.or_eq_false_iff, List.any_eq_false, decide_eq_true_eq]
  exact ⟨fun b hb => h.1 b hb, fun b hb => h.2 b hb⟩

theorem hasCategory_of_absent (s : BookmarkStore) (id : Nat) (h : categoryAbsent s id) :
    hasCategory s id = false := by
  simp only [hasCategory, List.any_eq_false, decide_eq_true_eq]
  exact fun c hc => h c hc

/-- C4: for every store state and every bookmark id absent from it, `updateBookmark` and
`removeBookmark` fail with `NotFound`, and for every category id absent from it
`removeBookmarkCategory` fails with `NotFound`; the failure is the result the caller
receives, not a silent completion. -/
theorem bookmark_mutations_fail_on_absent_id (s : BookmarkStore) (id : Nat)
    (name comment categoryName : String) :
    (bookmarkAbsent s id →
      updateBookmark s id name comment categoryName = Except.error StorageError.NotFound ∧
      removeBookmark s id = Except.error StorageError.NotFound) ∧
    (categoryAbsent s id →
      removeBookmarkCategory s id = Except.error StorageError.NotFound) := by
  constructor
  · intro h
    have hb := hasBookmark_of_absent s id h
    constructor
    · rw [updateBookmark, hb]; rfl
    · rw [removeBookmark, hb]; rfl
  · intro h
    rw [removeBookmarkCategory, hasCategory_of_absent s id h]; rfl

/-- Witness for C4: the sample store holds the bookmarks 1 and 3 and the categories 5 and 7;
bookmark 2 and category 6 are absent. -/
theorem bookmark_mutations_fail_on_absent_id_witness :
    (bookmarkAbsent sampleBookmarkStore 2 ∧
      updateBookmark sampleBookmarkStore 2 "x" "y" "default" =
        Except.error StorageError.NotFound ∧
      removeBookmark sampleBookmarkStore 2 = Except.error StorageError.NotFound) ∧
    (categoryAbsent sampleBookmarkStore 6 ∧
      removeBookmarkCategory sampleBookmarkStore 6 = Except.error StorageError.NotFound) :=
  have hb : bookmarkAbsent sampleBookmarkStore 2 := by
    simp [bookmarkAbsent, sampleBookmarkStore]
  have hc : categoryAbsent sampleBookmarkStore 6 := by
    simp [categoryAbsent, sampleBookmarkStore]
  ⟨⟨hb, (bookmark_mutations_fail_on_absent_id sampleBookmarkStore 2 "x" "y" "default").1 hb⟩,
    ⟨hc, (bookmark_mutations_fail_on_absent_id sampleBookmarkStore 6 "x" "y" "default").2 hc⟩⟩

/-! ## Ids within one search session -/

theorem annotationsFor_ids (w : Nat) (tlc : Nat → Int × Int) (query : List Char) :
    ∀ (starts : List Nat) (size : Nat),
      (annotationsFor w tlc query size starts).map Annotation.locationId =
        (List.range' size starts.length).map (screenMatchId w)
  | [], _ => rfl
  | s :: rest, size => by
    simp only [annotationsFor, List.map_cons, List.length_cons, List.range'_succ,
      annotationsFor_ids w tlc query rest (size + 1)]
    rfl

/-- The entries a finished call appends carry the ids of the consecutive vector sizes. -/
theorem findScreenMatches_ids (w : Nat) (toLowerCase : List Char → List Char)
    (toLineColumn : Nat → Nat → Int × Int) (fuel this : Nat) (area area1 : QtCodeArea)
    (query : List Char) (sm sm1 : ScreenMatches)
    (h : findScreenMatches w toLowerCase toLineColumn fuel this area query sm = some (area1, sm1)) :
    ∃ new : List Annotation,
      area1.m_annotations = area.m_annotations ++ new ∧
      sm1 = sm ++ new.map (fun a => (this, a.locationId)) ∧
      new.map Annotation.locationId = (List.range' sm.length new.length).map (screenMatchId w) ∧
      area1.m_code = area.m_code := by
  obtain ⟨starts, _, _, h3, h4, h5⟩ :=
    findScreenMatches_trace w toLowerCase toLineColumn fuel this area area1 query sm sm1 h
  refine ⟨_, h3, h4, ?_, h5⟩
  rw [annotationsFor_ids, annotationsFor_length]

/-- Invariant of a finished session: the vector has grown by entries with the ids of the
consecutive sizes, every object has kept its code and has gained exactly the annotations whose
ids the vector lists for its address. -/
theorem searchAreas_trace (w : Nat) (toLowerCase : List Char → List Char)
    (toLineColumn : Nat → Nat → Int × Int) (fuel : Nat) :
    ∀ (calls : List (Nat × List Char)) (heap heap1 : Heap) (sm sm1 : ScreenMatches),
      searchAreas w toLowerCase toLineColumn fuel calls (heap, sm) = some (heap1, sm1) →
      ∃ app : ScreenMatches, sm1 = sm ++ app ∧
        app.map Prod.snd = (List.range' sm.length app.length).map (screenMatchId w) ∧
        ∀ t, ∃ l, (heap1 t).m_annotations = (heap t).m_annotations ++ l ∧
          l.map Annotation.locationId =
            (app.filter fun e => decide (e.1 = t)).map Prod.snd
  | [], heap, heap1, sm, sm1, h => by
    simp only [searchAreas, Option.some.injEq, Prod.mk.injEq] at h
    obtain ⟨rfl, rfl⟩ := h
    exact ⟨[], by simp, by simp, fun t => ⟨[], by simp, by simp⟩⟩
  | (this, query) :: rest, heap, heap1, sm, sm1, h => by
    rw [searchAreas] at h
    cases hc : findScreenMatches w toLowerCase toLineColumn fuel this (heap this) query sm with
    | none => rw [hc] at h; cases h
    | some r =>
      obtain ⟨area2, sm2⟩ := r
      rw [hc] at h
      simp only at h
      obtain ⟨new, n1, n2, n3, _⟩ :=
        findScreenMatches_ids w toLowerCase toLineColumn fuel this _ area2 query sm sm2 hc
      obtain ⟨app, a1, a2, a3⟩ :=
        searchAreas_trace w toLowerCase toLineColumn fuel rest _ heap1 sm2 sm1 h
      refine ⟨new.map (fun a => (this, a.locationId)) ++ app, ?_, ?_, fun t => ?_⟩
      · rw [a1, n2, List.append_assoc]
      · rw [List.map_append, a2, List.map_map]
        have hcomp : (Prod.snd ∘ fun a : Annotation => (this, a.locationId)) =
            Annotation.locationId := rfl
        rw [hcomp, n3, n2]
        simp only [List.length_append, List.length_map]
        rw [← List.map_append, List.range'_append_1, Nat.add_comm]
      · obtain ⟨l, l1, l2⟩ := a3 t
        by_cases ht : t = this
        · subst ht
          refine ⟨new ++ l, ?_, ?_⟩
          · rw [l1, Function.update_same, n1, List.append_assoc]
          · rw [List.map_append, l2, List.filter_append, List.map_append]
            congr 1
            rw [List.filter_eq_self.2, List.map_map]
            · rfl
            · intro e he
              obtain ⟨a, _, rfl⟩ := List.mem_map.1 he
              simp
        · refine ⟨l, ?_, ?_⟩
          · rw [l1, Function.update_noteq ht]
          · rw [l2, List.filter_append]
            have hnil : (new.map fun a => (this, a.locationId)).filter
                (fun e => decide (e.1 = t)) = [] := by
              rw [List.filter_eq_nil_iff]
              intro e he
              obtain ⟨a, _, rfl⟩ := List.mem_map.1 he
              simpa using fun h => ht h.symm
            rw [hnil, List.nil_append]

/-- A session of calls with non-empty queries finishes when the fuel exceeds the length of
every lower-cased code. -/
theorem searchAreas_total (w : Nat) (toLowerCase : List Char → List Char)
    (toLineColumn : Nat → Nat → Int × Int) (fuel : Nat) :
    ∀ (calls : List (Nat × List Char)) (heap : Heap) (sm : ScreenMatches),
      (∀ c ∈ calls, c.2 ≠ [] ∧ (toLowerCase (heap c.1).m_code).length < fuel) →
      ∃ heap1 sm1, searchAreas w toLowerCase toLineColumn fuel calls (heap, sm) =
        some (heap1, sm1)
  | [], heap, sm, _ => ⟨heap, sm, rfl⟩
  | (this, query) :: rest, heap, sm, h => by
    obtain ⟨hq, hfuel⟩ := h (this, query) (List.mem_cons_self _ _)
    obtain ⟨starts, _, hlen, hrun⟩ :=
      findScreenMatches_total w toLowerCase toLineColumn this (heap this) query sm hq
    have hqlen : 0 < query.length := List.length_pos.2 hq
    have hs : starts.length < fuel := by
      have : starts.length ≤ starts.length * query.length := Nat.le_mul_of_pos_right _ hqlen
      simp only at hfuel
      omega
    obtain ⟨area1, h1, _⟩ := hrun fuel hs
    have hcode : area1.m_code = (heap this).m_code :=
      (findScreenMatches_trace w toLowerCase toLineColumn fuel this _ area1 query sm _
        h1).choose_spec.2.2.2.2
    rw [searchAreas, h1]
    refine searchAreas_total w toLowerCase toLineColumn fuel rest _ _ fun c hc => ?_
    obtain ⟨g1, g2⟩ := h c (List.mem_cons_of_mem _ hc)
    refine ⟨g1, ?_⟩
    by_cases hct : c.1 = this
    · rw [hct, Function.update_same, hcode, ← hct]; exact g2
    · rw [Function.update_noteq hct]; exact g2

theorem screenMatchId_injOn (w : Nat) (hw : 2 ≤ w) (n : Nat) (hn : n < 2 ^ (w - 2)) :
    ∀ i j, i < n → j < n → screenMatchId w i = screenMatchId w j → i = j := by
  intro i j hi hj h
  rw [screenMatchId_eq w i hw (by omega), screenMatchId_eq w j hw (by omega)] at h
  omega

theorem range_map_screenMatchId_nodup (w : Nat) (hw : 2 ≤ w) (n : Nat) (hn : n < 2 ^ (w - 2)) :
    ((List.range' 0 n).map (screenMatchId w)).Nodup := by
  refine List.Nodup.map_on (fun i hi j hj h => ?_) (List.nodup_range' 0 n)
  rw [List.mem_range'_1] at hi hj
  exact screenMatchId_injOn w hw n hn i j (by omega) (by omega) h

theorem nodup_get?_inj {α : Type} {l : List α} (h : l.Nodup) {i j : Nat} {x : α}
    (hi : l.get? i = some x) (hj : l.get? j = some x) : i = j := by
  have key := List.nodup_iff_get?_ne_get?.1 h
  have hil : i < l.length := (List.get?_eq_some.1 hi).1
  have hjl : j < l.length := (List.get?_eq_some.1 hj).1
  rcases Nat.lt_trichotomy i j with hlt | heq | hgt
  · exact absurd (hi.trans hj.symm) (key i j hlt hjl)
  · exact heq
  · exact absurd (hj.trans hi.symm) (key j i hgt hil)

/-- C2: let `findScreenMatches` be called, with non-empty queries and enough fuel, for any
sequence of code areas (given by address; an area may occur more than once) on one vector that
is empty at the start. Then the calls finish, and if the vector ends up with fewer than
`2 ^ (w - 2)` entries, the entry at 0-based index `i` has the id `3 * 2 ^ (w - 2) + i + 1`, no
two entries of the vector have the same id, and no two annotations created by the calls (in the
same area or in different areas) have the same `locationId`. -/
theorem searchAreas_ids_unique (w : Nat) (toLowerCase : List Char → List Char)
    (toLineColumn : Nat → Nat → Int × Int) (fuel : Nat) (calls : List (Nat × List Char))
    (heap : Heap) (hw : 2 ≤ w)
    (hcalls : ∀ c ∈ calls, c.2 ≠ [] ∧ (toLowerCase (heap c.1).m_code).length < fuel) :
    ∃ heap1 sm1,
      searchAreas w toLowerCase toLineColumn fuel calls (heap, []) = some (heap1, sm1) ∧
      (sm1.length < 2 ^ (w - 2) →
        (∀ i e, sm1.get? i = some e → e.2 = 3 * 2 ^ (w - 2) + i + 1) ∧
        (sm1.map Prod.snd).Nodup ∧
        ∀ t1 t2 i1 i2 a1 a2,
          (created heap heap1 t1).get? i1 = some a1 →
          (created heap heap1 t2).get? i2 = some a2 →
          a1.locationId = a2.locationId → t1 = t2 ∧ i1 = i2) := by
  obtain ⟨heap1, sm1, hrun⟩ :=
    searchAreas_total w toLowerCase toLineColumn fuel calls heap [] hcalls
  refine ⟨heap1, sm1, hrun, fun hbound => ?_⟩
  obtain ⟨app, happ, hids, hper⟩ :=
    searchAreas_trace w toLowerCase toLineColumn fuel calls heap heap1 [] sm1 hrun
  rw [List.nil_append] at happ
  subst happ
  simp only [List.length_nil] at hids
  have hnd : (sm1.map Prod.snd).Nodup := by
    rw [hids]
    exact range_map_screenMatchId_nodup w hw _ hbound
  refine ⟨fun i e hie => ?_, hnd, ?_⟩
  · have hil : i < sm1.length := (List.get?_eq_some.1 hie).1
    have h1 : (sm1.map Prod.snd)[i]? = some e.2 := by
      rw [List.getElem?_map, ← List.get?_eq_getElem?, hie]; rfl
    rw [hids, List.getElem?_map, List.getElem?_range' 0 1 hil] at h1
    simp only [Option.map_some', Option.some.injEq, Nat.zero_add, Nat.one_mul] at h1
    rw [← h1, screenMatchId_eq w i hw (by omega)]
  · intro t1 t2 i1 i2 a1 a2 h1 h2 heq
    obtain ⟨l1, e1, f1⟩ := hper t1
    obtain ⟨l2, e2, f2⟩ := hper t2
    have c1 : created heap heap1 t1 = l1 := by rw [created, e1, List.drop_left]
    have c2 : created heap heap1 t2 = l2 := by rw [created, e2, List.drop_left]
    rw [c1] at h1
    rw [c2] at h2
    have m1 : a1.locationId ∈ (sm1.filter fun e => decide (e.1 = t1)).map Prod.snd := by
      rw [← f1]; exact List.mem_map_of_mem _ (List.get?_mem h1)
    have m2 : a2.locationId ∈ (sm1.filter fun e => decide (e.1 = t2)).map Prod.snd := by
      rw [← f2]; exact List.mem_map_of_mem _ (List.get?_mem h2)
    obtain ⟨x1, hx1, hx1id⟩ := List.mem_map.1 m1
    obtain ⟨x2, hx2, hx2id⟩ := List.mem_map.1 m2
    rw [List.mem_filter] at hx1 hx2
    have hx : x1 = x2 :=
      List.inj_on_of_nodup_map hnd hx1.1 hx2.1 (by rw [hx1id, hx2id, heq])
    have ht : t1 = t2 := by
      have g1 : x1.1 = t1 := of_decide_eq_true hx1.2
      have g2 : x2.1 = t2 := of_decide_eq_true hx2.2
      rw [← g1, ← g2, hx]
    subst ht
    have hl : l1 = l2 := List.append_cancel_left (e1.symm.trans e2)
    subst hl
    have hnd1 : (l1.map Annotation.locationId).Nodup := by
      rw [f1]
      exact List.Nodup.sublist (List.Sublist.map _ (List.filter_sublist _)) hnd
    have k1 : (l1.map Annotation.locationId).get? i1 = some a1.locationId := by
      rw [List.get?_eq_getElem?, List.getElem?_map, ← List.get?_eq_getElem?, h1]; rfl
    have k2 : (l1.map Annotation.locationId).get? i2 = some a1.locationId := by
      rw [List.get?_eq_getElem?, List.getElem?_map, ← List.get?_eq_getElem?, h2, heq]; rfl
    exact ⟨rfl, nodup_get?_inj hnd1 k1 k2⟩

/-- Witness for C2: a 64-bit `Id`; the areas at the addresses 1, 2 and 1 again are searched for
`a`, `b` and `ab`. -/
theorem searchAreas_ids_unique_witness :
    (∀ c ∈ [(1, "a".toList), (2, "b".toList), (1, "ab".toList)],
      c.2 ≠ [] ∧ (asciiLower (sampleHeap c.1).m_code).length < 5) ∧
    ∃ heap1 sm1,
      searchAreas 64 asciiLower oneLine 5 [(1, "a".toList), (2, "b".toList), (1, "ab".toList)]
        (sampleHeap, []) = some (heap1, sm1) ∧
      (sm1.length < 2 ^ (64 - 2) →
        (∀ i e, sm1.get? i = some e → e.2 = 3 * 2 ^ (64 - 2) + i + 1) ∧
        (sm1.map Prod.snd).Nodup ∧
        ∀ t1 t2 i1 i2 a1 a2,
          (created sampleHeap heap1 t1).get? i1 = some a1 →
          (created sampleHeap heap1 t2).get? i2 = some a2 →
          a1.locationId = a2.locationId → t1 = t2 ∧ i1 = i2) :=
  ⟨by decide,
    searchAreas_ids_unique 64 asciiLower oneLine 5
      [(1, "a".toList), (2, "b".toList), (1, "ab".toList)] sampleHeap (by decide) (by decide)⟩

/-! ## Ids across searches -/

/-- C3, the code at a concrete input (64-bit `Id`): the area showing `abab` is searched for
`ab` with an empty vector, `clearScreenMatches` removes the two annotations, the caller empties
the vector, and the area is searched for `b`. Both searches assign the ids `3 * 2 ^ 62 + 1`
and `3 * 2 ^ 62 + 2`. -/
theorem findScreenMatches_ids_reused_after_clear :
    (findScreenMatches 64 asciiLower oneLine 5 1 (mkArea "abab") "ab".toList []).map
        (fun r => (r.1.m_annotations.map Annotation.locationId, r.2.map Prod.snd,
          (clearScreenMatches r.1).m_annotations)) =
      some ([3 * 2 ^ 62 + 1, 3 * 2 ^ 62 + 2], [3 * 2 ^ 62 + 1, 3 * 2 ^ 62 + 2], []) ∧
    ((findScreenMatches 64 asciiLower oneLine 5 1 (mkArea "abab") "ab".toList []).bind
        fun r => (findScreenMatches 64 asciiLower oneLine 5 1 (clearScreenMatches r.1)
          "b".toList []).map
            fun r2 => (r2.1.m_annotations.map Annotation.locationId, r2.2.map Prod.snd)) =
      some ([3 * 2 ^ 62 + 1, 3 * 2 ^ 62 + 2], [3 * 2 ^ 62 + 1, 3 * 2 ^ 62 + 2]) := by
  constructor <;> decide

/-- C3 as amended: take two finished calls of `findScreenMatches` of which the later one
receives the vector as the earlier one left it, possibly extended by `mid` in between but not
emptied. If the vector ends up with fewer than `2 ^ (w - 2)` entries, no `locationId` assigned
by the later call equals a `locationId` assigned by the earlier call. -/
theorem findScreenMatches_ids_not_reused_on_same_vector (w : Nat)
    (toLowerCase : List Char → List Char) (toLineColumn : Nat → Nat → Int × Int)
    (fuel1 fuel2 t1 t2 : Nat) (area1 after1 area2 after2 : QtCodeArea) (query1 query2 : List Char)
    (sm0 sm1 mid sm2 : ScreenMatches) (hw : 2 ≤ w)
    (h1 : findScreenMatches w toLowerCase toLineColumn fuel1 t1 area1 query1 sm0 =
      some (after1, sm1))
    (h2 : findScreenMatches w toLowerCase toLineColumn fuel2 t2 area2 query2 (sm1 ++ mid) =
      some (after2, sm2))
    (hbound : sm2.length < 2 ^ (w - 2)) :
    ∀ x ∈ after1.m_annotations.drop area1.m_annotations.length,
      ∀ y ∈ after2.m_annotations.drop area2.m_annotations.length,
        x.locationId ≠ y.locationId := by
  obtain ⟨new1, a1, b1, c1, _⟩ :=
    findScreenMatches_ids w toLowerCase toLineColumn fuel1 t1 area1 after1 query1 sm0 sm1 h1
  obtain ⟨new2, a2, b2, c2, _⟩ :=
    findScreenMatches_ids w toLowerCase toLineColumn fuel2 t2 area2 after2 query2 _ sm2 h2
  have hl1 : sm1.length = sm0.length + new1.length := by rw [b1]; simp
  have hl2 : sm2.length = sm1.length + mid.length + new2.length := by
    rw [b2]; simp only [List.length_append, List.length_map]
  intro x hx y hy heq
  rw [a1, List.drop_left] at hx
  rw [a2, List.drop_left] at hy
  have mx : x.locationId ∈ new1.map Annotation.locationId := List.mem_map_of_mem _ hx
  have my : y.locationId ∈ new2.map Annotation.locationId := List.mem_map_of_mem _ hy
  rw [c1] at mx
  rw [c2] at my
  obtain ⟨i, hi, hxi⟩ := List.mem_map.1 mx
  obtain ⟨j, hj, hyj⟩ := List.mem_map.1 my
  rw [List.mem_range'_1] at hi hj
  simp only [List.length_append] at hj
  have hij := screenMatchId_injOn w hw sm2.length hbound i j (by omega) (by omega)
    (by rw [hxi, hyj, heq])
  omega

/-- Witness for C3 as amended: a 64-bit `Id`; the area at address 1 showing `abab` is searched
for `ab`, then the area at address 2 showing `Ba` is searched for `a` on the same vector. -/
theorem findScreenMatches_ids_not_reused_on_same_vector_witness :
    (findScreenMatches 64 asciiLower oneLine 5 2 (mkArea "Ba") "a".toList
        [(1, 3 * 2 ^ 62 + 1), (1, 3 * 2 ^ 62 + 2)]).map (fun r => r.2) =
      some [(1, 3 * 2 ^ 62 + 1), (1, 3 * 2 ^ 62 + 2), (2, 3 * 2 ^ 62 + 3)] ∧
    ∀ x ∈ ({ mkArea "abab" with
        m_annotations :=
          [⟨0, 2, 1, 1, 1, 3, 3 * 2 ^ 62 + 1, LocationType.LOCATION_SCREEN_SEARCH, [], false,
            false⟩,
           ⟨2, 4, 1, 3, 1, 5, 3 * 2 ^ 62 + 2, LocationType.LOCATION_SCREEN_SEARCH, [], false,
            false⟩]
        viewportUpdates := 1 } : QtCodeArea).m_annotations.drop
          (mkArea "abab").m_annotations.length,
      ∀ y ∈ ({ mkArea "Ba" with
          m_annotations :=
            [⟨1, 2, 1, 2, 1, 3, 3 * 2 ^ 62 + 3, LocationType.LOCATION_SCREEN_SEARCH, [], false,
            false⟩]
          viewportUpdates := 1 } : QtCodeArea).m_annotations.drop
            (mkArea "Ba").m_annotations.length,
        x.locationId ≠ y.locationId :=
  ⟨by decide,
    findScreenMatches_ids_not_reused_on_same_vector 64 asciiLower oneLine 5 5 1 2
      (mkArea "abab") _ (mkArea "Ba") _ "ab".toList "a".toList []
      [(1, 3 * 2 ^ 62 + 1), (1, 3 * 2 ^ 62 + 2)] []
      [(1, 3 * 2 ^ 62 + 1), (1, 3 * 2 ^ 62 + 2), (2, 3 * 2 ^ 62 + 3)]
      (by decide) (by decide) (by decide) (by decide)⟩

end Sourcetrail
